import Mathlib

/-!
Verification of the payments-engine transaction processor.

The Rust source is shallowly embedded: `rust_decimal::Decimal` becomes an
integer mantissa with a decimal scale (`Amount`), the two hash maps of the
in-memory store become association lists with first-occurrence semantics
(a hash map is the nodup-key special case, and every operation below reads
and writes the first occurrence of a key consistently), `u16`/`u32` ids
become `Nat` (they are only compared for equality), and the fallible store
and engine operations return `Except`.  The engine processes transactions
serially, so `process_transaction` is a pure state-passing function; the
`upsert_account` failure of the testing store is modelled by a boolean
passed per call.
-/

namespace Payments

/-- Decimal amount: value is `m / 10 ^ s`.  Mirrors `rust_decimal::Decimal`
(exact fixed-point arithmetic; the 96-bit mantissa bound is not modelled,
so arithmetic is exact without overflow). -/
structure Amount where
  m : Int
  s : Nat
deriving DecidableEq, Repr

/-- Rational value of an amount. -/
def Amount.val (a : Amount) : ℚ := (a.m : ℚ) / (10 : ℚ) ^ a.s

/-- The scale of the decimal, as in `Decimal::scale`. -/
def Amount.scale (a : Amount) : Nat := a.s

/-- Decimal zero (`Amount::ZERO`, scale 0). -/
def Amount.zero : Amount := ⟨0, 0⟩

/-- Decimal addition: operands are aligned to the larger scale, mantissas
added, as `rust_decimal` does (no overflow modelled). -/
def Amount.add (a b : Amount) : Amount :=
  ⟨a.m * 10 ^ (max a.s b.s - a.s) + b.m * 10 ^ (max a.s b.s - b.s), max a.s b.s⟩

/-- Decimal subtraction, aligned to the larger scale. -/
def Amount.sub (a b : Amount) : Amount :=
  ⟨a.m * 10 ^ (max a.s b.s - a.s) - b.m * 10 ^ (max a.s b.s - b.s), max a.s b.s⟩

/-- Decimal order: value comparison after aligning scales
(`Decimal: PartialOrd`). -/
def Amount.lt (a b : Amount) : Bool :=
  decide (a.m * 10 ^ b.s < b.m * 10 ^ a.s)

/-- Transaction header: `TransactionInfo { id, client_id }`. -/
structure TransactionInfo where
  id : Nat
  client_id : Nat
deriving DecidableEq, Repr

/-- The five transaction kinds of `models/transaction.rs`. -/
inductive Transaction where
  | Deposit (info : TransactionInfo) (amount : Amount) (under_dispute : Bool)
  | Withdrawal (info : TransactionInfo) (amount : Amount)
  | Dispute (info : TransactionInfo)
  | Resolve (info : TransactionInfo)
  | ChargeBack (info : TransactionInfo)
deriving DecidableEq, Repr

/-- The `Transaction::info` accessor. -/
def Transaction.info : Transaction → TransactionInfo
  | .Deposit i _ _ => i
  | .Withdrawal i _ => i
  | .Dispute i => i
  | .Resolve i => i
  | .ChargeBack i => i

/-- The `Transaction::amount` accessor. -/
def Transaction.amount : Transaction → Option Amount
  | .Deposit _ a _ => some a
  | .Withdrawal _ a => some a
  | .Dispute _ => none
  | .Resolve _ => none
  | .ChargeBack _ => none

/-- `Transaction::has_negative_amount`. -/
def Transaction.has_negative_amount (t : Transaction) : Bool :=
  match t.amount with
  | some a => a.lt Amount.zero
  | none => false

/-- `Transaction::set_under_dispute`: only mutates the `Deposit` variant. -/
def Transaction.set_under_dispute (t : Transaction) (disputed : Bool) : Transaction :=
  match t with
  | .Deposit i a _ => .Deposit i a disputed
  | .Withdrawal i a => .Withdrawal i a
  | .Dispute i => .Dispute i
  | .Resolve i => .Resolve i
  | .ChargeBack i => .ChargeBack i

/-- The toggle counterpart, `Transaction::toggle_under_dispute`. -/
def Transaction.toggle_under_dispute (t : Transaction) : Transaction :=
  match t with
  | .Deposit i a u => .Deposit i a (!u)
  | .Withdrawal i a => .Withdrawal i a
  | .Dispute i => .Dispute i
  | .Resolve i => .Resolve i
  | .ChargeBack i => .ChargeBack i

/-- True exactly on the `Deposit` variant. -/
def Transaction.isDeposit : Transaction → Bool
  | .Deposit _ _ _ => true
  | .Withdrawal _ _ => false
  | .Dispute _ => false
  | .Resolve _ => false
  | .ChargeBack _ => false

/-- True exactly on the `Withdrawal` variant. -/
def Transaction.isWithdrawal : Transaction → Bool
  | .Deposit _ _ _ => false
  | .Withdrawal _ _ => true
  | .Dispute _ => false
  | .Resolve _ => false
  | .ChargeBack _ => false

/-- Client balance record of `models/account.rs`. -/
structure Account where
  client : Nat
  available : Amount
  held : Amount
  total : Amount
  locked : Bool
deriving DecidableEq, Repr

/-- `Account::new`: a fresh zeroed account. -/
def Account.new (client : Nat) : Account :=
  ⟨client, Amount.zero, Amount.zero, Amount.zero, false⟩

/-- Store error taxonomy of `store.rs`. -/
inductive StoreError where
  | NotFound (id : Nat)
  | AlreadyExists (id : Nat)
  | AccessError (msg : String)
  | UnknownError (msg : String)
deriving DecidableEq, Repr

/-- Engine error taxonomy of `core/engine.rs`. -/
inductive EngineError where
  | Store (e : StoreError)
  | InsufficientAvailableFunds
  | InsufficientHeldFunds
  | WrongTransactionRef (id : Nat)
  | TransactionRefWrongClient (id : Nat) (client : Nat) (wrong_client : Nat)
  | NegativeAmountTransaction (id : Nat)
  | DoubleDispute (id : Nat)
  | LockedAccount (id : Nat) (tx : Nat)
  | UnknownError (msg : String)
  | TransactionNotCommited (e : StoreError)
deriving DecidableEq, Repr

/-- Lookup of the first entry with the given key (the hash-map `get`). -/
def kvLookup {β : Type} : List (Nat × β) → Nat → Option β
  | [], _ => none
  | (k', v) :: t, k => if k' = k then some v else kvLookup t k

/-- Replace the first entry with the given key, or append (`insert`). -/
def kvInsert {β : Type} : List (Nat × β) → Nat → β → List (Nat × β)
  | [], k, v => [(k, v)]
  | (k', v') :: t, k, v =>
    if k' = k then (k, v) :: t else (k', v') :: kvInsert t k v

/-- Remove the first entry with the given key (`remove`). -/
def kvErase {β : Type} : List (Nat × β) → Nat → List (Nat × β)
  | [], _ => []
  | (k', v') :: t, k => if k' = k then t else (k', v') :: kvErase t k

/-- Apply a function to the first entry with the given key (`get_mut`). -/
def kvModify {β : Type} : List (Nat × β) → Nat → (β → β) → List (Nat × β)
  | [], _, _ => []
  | (k', v) :: t, k, f =>
    if k' = k then (k', f v) :: t else (k', v) :: kvModify t k f

/-- The two maps of `MemoryStore`: deposits keyed by transaction id,
accounts keyed by client id. -/
structure MemoryStore where
  deposits : List (Nat × Transaction)
  accounts : List (Nat × Account)
deriving DecidableEq, Repr

/-- The empty store. -/
def MemoryStore.empty : MemoryStore := ⟨[], []⟩

/-- `MemoryStore::get_transaction`: `NotFound` when absent. -/
def MemoryStore.get_transaction (st : MemoryStore) (id : Nat) :
    Except StoreError Transaction :=
  match kvLookup st.deposits id with
  | some t => .ok t
  | none => .error (.NotFound id)

/-- The `create_transaction` of `memory_store.rs`: only `Deposit`s are
stored; an occupied entry yields `AlreadyExists`; any other kind is a
no-op success. -/
def MemoryStore.create_transaction (st : MemoryStore) (tx : Transaction) :
    Except StoreError MemoryStore :=
  match tx with
  | .Deposit _ _ _ =>
    match kvLookup st.deposits tx.info.id with
    | some _ => .error (.AlreadyExists tx.info.id)
    | none => .ok { st with deposits := kvInsert st.deposits tx.info.id tx }
  | .Withdrawal _ _ => .ok st
  | .Dispute _ => .ok st
  | .Resolve _ => .ok st
  | .ChargeBack _ => .ok st

/-- `delete_transaction`: removing a missing id succeeds silently. -/
def MemoryStore.delete_transaction (st : MemoryStore) (id : Nat) : MemoryStore :=
  { st with deposits := kvErase st.deposits id }

/-- `set_transaction_under_dispute`: silent no-op on a missing id. -/
def MemoryStore.set_transaction_under_dispute (st : MemoryStore) (id : Nat)
    (under_dispute : Bool) : MemoryStore :=
  { st with deposits := kvModify st.deposits id (·.set_under_dispute under_dispute) }

/-- The store `toggle_under_dispute`: silent no-op on a missing id. -/
def MemoryStore.toggle_under_dispute (st : MemoryStore) (id : Nat) : MemoryStore :=
  { st with deposits := kvModify st.deposits id Transaction.toggle_under_dispute }

/-- `get_account`: a fresh zeroed account when absent (not persisted). -/
def MemoryStore.get_account (st : MemoryStore) (id : Nat) : Account :=
  (kvLookup st.accounts id).getD (Account.new id)

/-- The state change of a successful `upsert_account`. -/
def MemoryStore.upsert_account (st : MemoryStore) (a : Account) : MemoryStore :=
  { st with accounts := kvInsert st.accounts a.client a }

/-- The `dispute` handler of `engine.rs`. -/
def dispute (st : MemoryStore) (a : Account) (info : TransactionInfo) :
    Except EngineError (Account × MemoryStore) :=
  match st.get_transaction info.id with
  | .error (.NotFound _) => .ok (a, st)
  | .error e => .error (.Store e)
  | .ok (.Deposit rinfo amount under_dispute) =>
    if a.client ≠ rinfo.client_id then
      .error (.TransactionRefWrongClient rinfo.id rinfo.client_id a.client)
    else if under_dispute then .error (.DoubleDispute rinfo.id)
    else if a.available.lt amount then .error .InsufficientAvailableFunds
    else
      .ok ({ a with available := a.available.sub amount, held := a.held.add amount },
        st.set_transaction_under_dispute rinfo.id true)
  | .ok _ => .error (.WrongTransactionRef info.id)

/-- The `resolve` handler of `engine.rs`. -/
def resolve (st : MemoryStore) (a : Account) (info : TransactionInfo) :
    Except EngineError (Account × MemoryStore) :=
  match st.get_transaction info.id with
  | .error (.NotFound _) => .ok (a, st)
  | .error e => .error (.Store e)
  | .ok (.Deposit rinfo amount under_dispute) =>
    if a.client ≠ rinfo.client_id then
      .error (.TransactionRefWrongClient rinfo.id rinfo.client_id a.client)
    else if a.held.lt amount then .error .InsufficientHeldFunds
    else if !under_dispute then .ok (a, st)
    else
      .ok ({ a with held := a.held.sub amount, available := a.available.add amount },
        st.set_transaction_under_dispute rinfo.id false)
  | .ok _ => .error (.WrongTransactionRef info.id)

/-- The `chargeback` handler of `engine.rs`. -/
def chargeback (st : MemoryStore) (a : Account) (info : TransactionInfo) :
    Except EngineError (Account × MemoryStore) :=
  match st.get_transaction info.id with
  | .error (.NotFound _) => .ok (a, st)
  | .error e => .error (.Store e)
  | .ok (.Deposit rinfo amount under_dispute) =>
    if a.client ≠ rinfo.client_id then
      .error (.TransactionRefWrongClient rinfo.id rinfo.client_id a.client)
    else if a.held.lt amount then .error .InsufficientHeldFunds
    else if !under_dispute then .ok (a, st)
    else
      .ok ({ a with held := a.held.sub amount, total := a.total.sub amount, locked := true },
        st.set_transaction_under_dispute rinfo.id false)
  | .ok _ => .error (.WrongTransactionRef info.id)

/-- `apply_transaction`: dispatch by kind.  The `deposit` and `withdrawal`
handlers are inlined (they do not touch the store). -/
def apply_transaction (st : MemoryStore) (a : Account) :
    Transaction → Except EngineError (Account × MemoryStore)
  | .Deposit _ amount _ =>
    .ok ({ a with available := a.available.add amount, total := a.total.add amount }, st)
  | .Withdrawal _ amount =>
    if a.available.lt amount then .error .InsufficientAvailableFunds
    else .ok ({ a with available := a.available.sub amount, total := a.total.sub amount }, st)
  | .Dispute info => dispute st a info
  | .Resolve info => resolve st a info
  | .ChargeBack info => chargeback st a info

/-- `Engine::process_transaction` of `engine.rs`.  `failUpsert` injects the
`upsert_account` failure of the testing store (an `AccessError`).  Steps:
negative-amount guard, `create_transaction` (its error propagates before
the rollback branch), load account, locked guard, dispatch, persist; on
any failure after the create step, a Deposit/Withdrawal is compensated by
`delete_transaction` and a Dispute/Resolve/ChargeBack by
`toggle_under_dispute` when the error is `TransactionNotCommited`.
First, the inner `async` block: locked guard, dispatch, persist;
it yields the store state reached at the point of the error, so the
rollback can be applied to it. -/
def processInner (failUpsert : Bool) (st1 : MemoryStore) (tx : Transaction) :
    Except (EngineError × MemoryStore) (Account × MemoryStore) :=
  if (st1.get_account tx.info.client_id).locked then
    .error (.LockedAccount tx.info.client_id tx.info.id, st1)
  else
    match apply_transaction st1 (st1.get_account tx.info.client_id) tx with
    | .error e => .error (e, st1)
    | .ok (a', st2) =>
      if failUpsert then
        .error (.TransactionNotCommited (.AccessError "Test Error"), st2)
      else .ok (a', st2.upsert_account a')

/-- The whole of `Engine::process_transaction`: negative-amount guard,
`create_transaction` (its error propagates with `?` before the rollback
branch exists), the inner block, then the compensation `match`. -/
def process_transaction (failUpsert : Bool) (st : MemoryStore) (tx : Transaction) :
    Except EngineError Account × MemoryStore :=
  if tx.has_negative_amount then
    (.error (.NegativeAmountTransaction tx.info.id), st)
  else
    match st.create_transaction tx with
    | .error e => (.error (.Store e), st)
    | .ok st1 =>
      match processInner failUpsert st1 tx with
      | .ok (a', st') => (.ok a', st')
      | .error (e, stE) =>
        match tx with
        | .Deposit _ _ _ | .Withdrawal _ _ =>
          (.error e, stE.delete_transaction tx.info.id)
        | _ =>
          match e with
          | .TransactionNotCommited _ => (.error e, stE.toggle_under_dispute tx.info.id)
          | _ => (.error e, stE)

/-- One step of a run: the state after processing one transaction, the
boolean being the injected `upsert_account` outcome for that call. -/
def runStep (st : MemoryStore) (s : Transaction × Bool) : MemoryStore :=
  (process_transaction s.2 st s.1).2

/-- Run a sequence of `process_transaction` calls from a given state. -/
def runFrom (st : MemoryStore) (steps : List (Transaction × Bool)) : MemoryStore :=
  steps.foldl runStep st

/-- Run a sequence of `process_transaction` calls from the empty store. -/
def run (steps : List (Transaction × Bool)) : MemoryStore :=
  runFrom MemoryStore.empty steps

/-- Modelled from the spec: the scale-reduction loop of the external
`rust_decimal` crate's `Decimal::rescale` (the crate itself is not part of
this repository).  Digits are dropped one at a time, remembering the last
dropped digit; per the spec's S5 scenario (`1.00005` displays as `1.0001`)
the result is rounded up when that digit is five or more. -/
def dropDigits : Nat → Nat → Nat → Nat × Nat
  | n, r, 0 => (n, r)
  | n, _, d + 1 => dropDigits (n / 10) (n % 10) d

/-- The free function `rescale_to_max_precision` of `account.rs`: rescale
to 4 fractional digits only when the current scale exceeds 4. -/
def rescale_to_max_precision (a : Amount) : Amount :=
  if 4 < a.s then
    let p := dropDigits a.m.natAbs 0 (a.s - 4)
    let q := if 5 ≤ p.2 then p.1 + 1 else p.1
    ⟨if a.m < 0 then -(q : Int) else (q : Int), 4⟩
  else a

/-- `Account::to_max_display_precision`: rescale the three amounts. -/
def Account.to_max_display_precision (a : Account) : Account :=
  { a with
    available := rescale_to_max_precision a.available,
    held := rescale_to_max_precision a.held,
    total := rescale_to_max_precision a.total }

/-- `report` / `get_all_accounts`: the accounts currently in the store
(order unspecified; here, list order). -/
def report (st : MemoryStore) : List Account := st.accounts.map (·.2)

/-- The account records emitted by `write_csv_async`: each streamed account
is rescaled (a copy; the store is a value elsewhere and is untouched). -/
def write_csv_accounts (l : List Account) : List Account :=
  l.map Account.to_max_display_precision

/-- Net flow of one `process_transaction` call: the amount of a successful
deposit, minus the amount of a successful withdrawal, zero otherwise. -/
def stepFlow (st : MemoryStore) (s : Transaction × Bool) : ℚ :=
  match s.1, (process_transaction s.2 st s.1).1 with
  | .Deposit _ amt _, .ok _ => amt.val
  | .Withdrawal _ amt, .ok _ => -amt.val
  | _, _ => 0

/-- Sum of the successful deposit amounts minus the successful withdrawal
amounts over a run. -/
def flowVal : MemoryStore → List (Transaction × Bool) → ℚ
  | _, [] => 0
  | st, s :: rest => stepFlow st s + flowVal (runStep st s) rest

/-- Whether one call is a chargeback that returned `Ok`. -/
def chargebackOk (st : MemoryStore) (s : Transaction × Bool) : Bool :=
  match s.1, (process_transaction s.2 st s.1).1 with
  | .ChargeBack _, .ok _ => true
  | _, _ => false

/-- A run with no successful chargeback. -/
def noChargeback : MemoryStore → List (Transaction × Bool) → Bool
  | _, [] => true
  | st, s :: rest => !chargebackOk st s && noChargeback (runStep st s) rest

/-- Sum of `total` over an accounts list, as a rational value. -/
def accTotals (l : List (Nat × Account)) : ℚ :=
  (l.map (fun p => p.2.total.val)).sum

/-- Sum of `total` over all stored accounts. -/
def sumTotals (st : MemoryStore) : ℚ := accTotals st.accounts

/-! ### Value lemmas for decimal arithmetic -/

theorem Amount.val_zero : Amount.zero.val = 0 := by
  simp [Amount.val, Amount.zero]

theorem val_align (m : Int) (s S : Nat) (h : s ≤ S) :
    ((m : ℚ) * 10 ^ (S - s)) / 10 ^ S = (m : ℚ) / 10 ^ s := by
  rw [div_eq_div_iff (by positivity) (by positivity), mul_assoc, ← pow_add]
  congr 2
  omega

theorem Amount.val_add (a b : Amount) : (a.add b).val = a.val + b.val := by
  unfold Amount.val Amount.add
  push_cast
  rw [add_div, val_align a.m a.s _ (le_max_left _ _), val_align b.m b.s _ (le_max_right _ _)]

theorem Amount.val_sub (a b : Amount) : (a.sub b).val = a.val - b.val := by
  unfold Amount.val Amount.sub
  push_cast
  rw [sub_div, val_align a.m a.s _ (le_max_left _ _), val_align b.m b.s _ (le_max_right _ _)]

theorem Amount.lt_iff (a b : Amount) : a.lt b = true ↔ a.val < b.val := by
  unfold Amount.lt Amount.val
  rw [decide_eq_true_iff, div_lt_div_iff₀ (by positivity) (by positivity)]
  constructor <;> intro h <;> exact_mod_cast h

theorem Amount.lt_false_iff (a b : Amount) : a.lt b = false ↔ b.val ≤ a.val := by
  rw [← Bool.not_eq_true, Amount.lt_iff, not_lt]

/-! ### Association-list lemmas -/

theorem kvLookup_mem {β : Type} {l : List (Nat × β)} {k : Nat} {v : β}
    (h : kvLookup l k = some v) : (k, v) ∈ l := by
  induction l with
  | nil => simp [kvLookup] at h
  | cons q t ih =>
    obtain ⟨a, b⟩ := q
    rw [kvLookup] at h
    by_cases hk : a = k
    · rw [if_pos hk] at h
      cases h
      subst hk
      exact List.mem_cons_self _ _
    · rw [if_neg hk] at h
      exact List.mem_cons_of_mem _ (ih h)

theorem mem_kvInsert {β : Type} {l : List (Nat × β)} {k : Nat} {v : β} {p : Nat × β}
    (h : p ∈ kvInsert l k v) : p ∈ l ∨ p = (k, v) := by
  induction l with
  | nil =>
    rw [kvInsert] at h
    right
    simpa using h
  | cons q t ih =>
    obtain ⟨a, b⟩ := q
    rw [kvInsert] at h
    by_cases hk : a = k
    · rw [if_pos hk] at h
      rcases List.mem_cons.mp h with h | h
      · right; exact h
      · left; exact List.mem_cons_of_mem _ h
    · rw [if_neg hk] at h
      rcases List.mem_cons.mp h with h | h
      · left; exact h ▸ List.mem_cons_self _ _
      · rcases ih h with h' | h'
        · left; exact List.mem_cons_of_mem _ h'
        · right; exact h'

theorem mem_kvErase {β : Type} {l : List (Nat × β)} {k : Nat} {p : Nat × β}
    (h : p ∈ kvErase l k) : p ∈ l := by
  induction l with
  | nil => simp [kvErase] at h
  | cons q t ih =>
    obtain ⟨a, b⟩ := q
    rw [kvErase] at h
    by_cases hk : a = k
    · rw [if_pos hk] at h
      exact List.mem_cons_of_mem _ h
    · rw [if_neg hk] at h
      rcases List.mem_cons.mp h with h | h
      · exact h ▸ List.mem_cons_self _ _
      · exact List.mem_cons_of_mem _ (ih h)

theorem mem_kvModify {β : Type} {l : List (Nat × β)} {k : Nat} {f : β → β} {p : Nat × β}
    (h : p ∈ kvModify l k f) : p ∈ l ∨ ∃ q ∈ l, p = (q.1, f q.2) := by
  induction l with
  | nil => simp [kvModify] at h
  | cons q t ih =>
    obtain ⟨a, b⟩ := q
    rw [kvModify] at h
    by_cases hk : a = k
    · rw [if_pos hk] at h
      rcases List.mem_cons.mp h with h | h
      · right; exact ⟨(a, b), List.mem_cons_self _ _, h⟩
      · left; exact List.mem_cons_of_mem _ h
    · rw [if_neg hk] at h
      rcases List.mem_cons.mp h with h | h
      · left; exact h ▸ List.mem_cons_self _ _
      · rcases ih h with h' | ⟨r, hr, hpr⟩
        · left; exact List.mem_cons_of_mem _ h'
        · right; exact ⟨r, List.mem_cons_of_mem _ hr, hpr⟩

theorem kvLookup_kvInsert_self {β : Type} (l : List (Nat × β)) (k : Nat) (v : β) :
    kvLookup (kvInsert l k v) k = some v := by
  induction l with
  | nil => simp [kvInsert, kvLookup]
  | cons q t ih =>
    obtain ⟨a, b⟩ := q
    rw [kvInsert]
    by_cases hk : a = k
    · rw [if_pos hk, kvLookup, if_pos rfl]
    · rw [if_neg hk, kvLookup, if_neg hk]
      exact ih

theorem kvLookup_kvInsert_ne {β : Type} (l : List (Nat × β)) (k k' : Nat) (v : β)
    (h : k' ≠ k) : kvLookup (kvInsert l k v) k' = kvLookup l k' := by
  induction l with
  | nil =>
    have hne : ¬ k = k' := fun h' => h h'.symm
    simp [kvInsert, kvLookup, hne]
  | cons q t ih =>
    obtain ⟨a, b⟩ := q
    rw [kvInsert]
    by_cases hk : a = k
    · rw [if_pos hk, kvLookup, kvLookup, if_neg fun h' => h h'.symm, if_neg]
      rw [hk]
      exact fun h' => h h'.symm
    · rw [if_neg hk, kvLookup, kvLookup, ih]

theorem kvErase_kvInsert {β : Type} (l : List (Nat × β)) (k : Nat) (v : β)
    (h : kvLookup l k = none) : kvErase (kvInsert l k v) k = l := by
  induction l with
  | nil => simp [kvInsert, kvErase]
  | cons q t ih =>
    obtain ⟨a, b⟩ := q
    rw [kvLookup] at h
    by_cases hk : a = k
    · rw [if_pos hk] at h
      cases h
    · rw [if_neg hk] at h
      rw [kvInsert, if_neg hk, kvErase, if_neg hk, ih h]

theorem kvModify_kvModify {β : Type} (l : List (Nat × β)) (k : Nat) (f g : β → β) :
    kvModify (kvModify l k f) k g = kvModify l k (fun v => g (f v)) := by
  induction l with
  | nil => simp [kvModify]
  | cons q t ih =>
    obtain ⟨a, b⟩ := q
    rw [kvModify]
    by_cases hk : a = k
    · rw [if_pos hk, kvModify, if_pos hk, kvModify, if_pos hk]
    · rw [if_neg hk, kvModify, if_neg hk, kvModify, if_neg hk, ih]

theorem kvModify_eq_self {β : Type} (l : List (Nat × β)) (k : Nat) (f : β → β)
    (h : ∀ v, kvLookup l k = some v → f v = v) : kvModify l k f = l := by
  induction l with
  | nil => simp [kvModify]
  | cons q t ih =>
    obtain ⟨a, b⟩ := q
    rw [kvModify]
    by_cases hk : a = k
    · rw [if_pos hk, h b (by rw [kvLookup, if_pos hk])]
    · rw [if_neg hk, ih fun v hv => h v (by rw [kvLookup, if_neg hk]; exact hv)]

theorem kvLookup_kvModify_self {β : Type} (l : List (Nat × β)) (k : Nat) (f : β → β) :
    kvLookup (kvModify l k f) k = (kvLookup l k).map f := by
  induction l with
  | nil => simp [kvModify, kvLookup]
  | cons q t ih =>
    obtain ⟨a, b⟩ := q
    rw [kvModify]
    by_cases hk : a = k
    · rw [if_pos hk, kvLookup, if_pos hk, kvLookup, if_pos hk]
      rfl
    · rw [if_neg hk, kvLookup, if_neg hk, kvLookup, if_neg hk, ih]

theorem accTotals_kvInsert (l : List (Nat × Account)) (k : Nat) (v : Account) :
    accTotals (kvInsert l k v) =
      accTotals l + v.total.val - ((kvLookup l k).map (fun a => a.total.val)).getD 0 := by
  induction l with
  | nil => simp [kvInsert, accTotals, kvLookup]
  | cons q t ih =>
    obtain ⟨a, b⟩ := q
    rw [kvInsert]
    by_cases hk : a = k
    · rw [if_pos hk]
      simp only [accTotals, List.map_cons, List.sum_cons, kvLookup, if_pos hk,
        Option.map_some', Option.getD_some]
      ring
    · rw [if_neg hk]
      simp only [accTotals, List.map_cons, List.sum_cons, kvLookup, if_neg hk] at *
      rw [ih]
      ring

/-! ### The reachable-state invariant -/

/-- Balance facts of one account: total is the sum of available and held,
and both parts are nonnegative. -/
def AccountOk (a : Account) : Prop :=
  a.total.val = a.available.val + a.held.val ∧ 0 ≤ a.available.val ∧ 0 ≤ a.held.val

/-- A stored transaction, when it is a deposit, has a nonnegative amount. -/
def DepositOk (t : Transaction) : Prop :=
  ∀ i amt u, t = Transaction.Deposit i amt u → 0 ≤ amt.val

/-- Invariant satisfied by every store the engine can reach from the empty
store: all accounts are keyed by their own client and balanced, and all
stored deposits carry nonnegative amounts. -/
structure Inv (st : MemoryStore) : Prop where
  acct : ∀ p ∈ st.accounts, p.2.client = p.1 ∧ AccountOk p.2
  dep : ∀ p ∈ st.deposits, DepositOk p.2

theorem bool_eq_false {b : Bool} (h : ¬ b = true) : b = false := by
  cases b
  · rfl
  · exact absurd rfl h

theorem accountOk_new (c : Nat) : AccountOk (Account.new c) := by
  refine ⟨?_, ?_, ?_⟩ <;> simp [Account.new, Amount.val_zero]

theorem Inv.get_account_ok {st : MemoryStore} (h : Inv st) (c : Nat) :
    (st.get_account c).client = c ∧ AccountOk (st.get_account c) := by
  unfold MemoryStore.get_account
  cases hl : kvLookup st.accounts c with
  | none => exact ⟨rfl, accountOk_new c⟩
  | some a =>
    have := h.acct (c, a) (kvLookup_mem hl)
    simpa using this

theorem nonneg_of_deposit_guard {i : TransactionInfo} {amt : Amount} {u : Bool}
    (h : (Transaction.Deposit i amt u).has_negative_amount = false) : 0 ≤ amt.val := by
  rw [Transaction.has_negative_amount, Transaction.amount] at h
  have := (Amount.lt_false_iff amt Amount.zero).mp h
  rwa [Amount.val_zero] at this

theorem nonneg_of_withdrawal_guard {i : TransactionInfo} {amt : Amount}
    (h : (Transaction.Withdrawal i amt).has_negative_amount = false) : 0 ≤ amt.val := by
  rw [Transaction.has_negative_amount, Transaction.amount] at h
  have := (Amount.lt_false_iff amt Amount.zero).mp h
  rwa [Amount.val_zero] at this

theorem depositOk_set {t : Transaction} (h : DepositOk t) (b : Bool) :
    DepositOk (t.set_under_dispute b) := by
  intro i amt u he
  cases t with
  | Deposit i0 a0 u0 =>
    rw [Transaction.set_under_dispute] at he
    cases he
    exact h _ _ _ rfl
  | Withdrawal i0 a0 => rw [Transaction.set_under_dispute] at he; cases he
  | Dispute i0 => rw [Transaction.set_under_dispute] at he; cases he
  | Resolve i0 => rw [Transaction.set_under_dispute] at he; cases he
  | ChargeBack i0 => rw [Transaction.set_under_dispute] at he; cases he

theorem depositOk_toggle {t : Transaction} (h : DepositOk t) :
    DepositOk t.toggle_under_dispute := by
  intro i amt u he
  cases t with
  | Deposit i0 a0 u0 =>
    rw [Transaction.toggle_under_dispute] at he
    cases he
    exact h _ _ _ rfl
  | Withdrawal i0 a0 => rw [Transaction.toggle_under_dispute] at he; cases he
  | Dispute i0 => rw [Transaction.toggle_under_dispute] at he; cases he
  | Resolve i0 => rw [Transaction.toggle_under_dispute] at he; cases he
  | ChargeBack i0 => rw [Transaction.toggle_under_dispute] at he; cases he

theorem depAll_kvModify {l : List (Nat × Transaction)} {f : Transaction → Transaction}
    (hf : ∀ t, DepositOk t → DepositOk (f t)) (h : ∀ p ∈ l, DepositOk p.2) (k : Nat) :
    ∀ p ∈ kvModify l k f, DepositOk p.2 := by
  intro p hp
  rcases mem_kvModify hp with hp' | ⟨q, hq, rfl⟩
  · exact h p hp'
  · exact hf _ (h q hq)

theorem depAll_kvErase {l : List (Nat × Transaction)}
    (h : ∀ p ∈ l, DepositOk p.2) (k : Nat) :
    ∀ p ∈ kvErase l k, DepositOk p.2 :=
  fun p hp => h p (mem_kvErase hp)

/-! ### Characterization of the handlers -/

theorem get_transaction_ok {st : MemoryStore} {id : Nat} {t : Transaction}
    (h : st.get_transaction id = .ok t) : kvLookup st.deposits id = some t := by
  unfold MemoryStore.get_transaction at h
  cases hl : kvLookup st.deposits id <;> rw [hl] at h
  · exact Except.noConfusion h
  · cases h
    rfl

theorem dispute_ok_spec {st st2 : MemoryStore} {a a' : Account} {info : TransactionInfo}
    (h : dispute st a info = .ok (a', st2)) :
    a'.client = a.client ∧ a'.total = a.total ∧ a'.locked = a.locked ∧
    st2.accounts = st.accounts ∧
    ((a' = a ∧ st2 = st) ∨
      ∃ rinfo amt ud, kvLookup st.deposits info.id = some (.Deposit rinfo amt ud) ∧
        a.available.lt amt = false ∧ ud = false ∧
        a' = { a with available := a.available.sub amt, held := a.held.add amt } ∧
        st2 = st.set_transaction_under_dispute rinfo.id true) := by
  unfold dispute at h
  split at h
  · cases h
    exact ⟨rfl, rfl, rfl, rfl, Or.inl ⟨rfl, rfl⟩⟩
  · exact Except.noConfusion h
  · rename_i rinfo amt ud heq
    split at h
    · exact Except.noConfusion h
    · split at h
      · exact Except.noConfusion h
      · split at h
        · exact Except.noConfusion h
        · rename_i hcl hud hlt
          cases h
          refine ⟨rfl, rfl, rfl, rfl, Or.inr ⟨rinfo, amt, ud, get_transaction_ok heq,
            bool_eq_false hlt, bool_eq_false hud, rfl, rfl⟩⟩
  · exact Except.noConfusion h

theorem resolve_ok_spec {st st2 : MemoryStore} {a a' : Account} {info : TransactionInfo}
    (h : resolve st a info = .ok (a', st2)) :
    a'.client = a.client ∧ a'.total = a.total ∧ a'.locked = a.locked ∧
    st2.accounts = st.accounts ∧
    ((a' = a ∧ st2 = st) ∨
      ∃ rinfo amt ud, kvLookup st.deposits info.id = some (.Deposit rinfo amt ud) ∧
        a.held.lt amt = false ∧ ud = true ∧
        a' = { a with held := a.held.sub amt, available := a.available.add amt } ∧
        st2 = st.set_transaction_under_dispute rinfo.id false) := by
  unfold resolve at h
  split at h
  · cases h
    exact ⟨rfl, rfl, rfl, rfl, Or.inl ⟨rfl, rfl⟩⟩
  · exact Except.noConfusion h
  · rename_i rinfo amt ud heq
    split at h
    · exact Except.noConfusion h
    · split at h
      · exact Except.noConfusion h
      · split at h
        · cases h
          exact ⟨rfl, rfl, rfl, rfl, Or.inl ⟨rfl, rfl⟩⟩
        · rename_i hcl hlt hud
          cases h
          refine ⟨rfl, rfl, rfl, rfl, Or.inr ⟨rinfo, amt, ud, get_transaction_ok heq,
            bool_eq_false hlt, ?_, rfl, rfl⟩⟩
          cases ud
          · exact absurd rfl hud
          · rfl
  · exact Except.noConfusion h

theorem chargeback_ok_spec {st st2 : MemoryStore} {a a' : Account} {info : TransactionInfo}
    (h : chargeback st a info = .ok (a', st2)) :
    a'.client = a.client ∧ a'.available = a.available ∧
    st2.accounts = st.accounts ∧
    ((a' = a ∧ st2 = st) ∨
      ∃ rinfo amt ud, kvLookup st.deposits info.id = some (.Deposit rinfo amt ud) ∧
        a.held.lt amt = false ∧ ud = true ∧
        a' = { a with held := a.held.sub amt, total := a.total.sub amt, locked := true } ∧
        st2 = st.set_transaction_under_dispute rinfo.id false) := by
  unfold chargeback at h
  split at h
  · cases h
    exact ⟨rfl, rfl, rfl, Or.inl ⟨rfl, rfl⟩⟩
  · exact Except.noConfusion h
  · rename_i rinfo amt ud heq
    split at h
    · exact Except.noConfusion h
    · split at h
      · exact Except.noConfusion h
      · split at h
        · cases h
          exact ⟨rfl, rfl, rfl, Or.inl ⟨rfl, rfl⟩⟩
        · rename_i hcl hlt hud
          cases h
          refine ⟨rfl, rfl, rfl, Or.inr ⟨rinfo, amt, ud, get_transaction_ok heq,
            bool_eq_false hlt, ?_, rfl, rfl⟩⟩
          cases ud
          · exact absurd rfl hud
          · rfl
  · exact Except.noConfusion h

/-! ### Characterization of `apply_transaction` and the engine pipeline -/

theorem apply_ok_spec {st st2 : MemoryStore} {a a' : Account} {tx : Transaction}
    (hdep : ∀ p ∈ st.deposits, DepositOk p.2) (ha : AccountOk a)
    (hneg : tx.has_negative_amount = false)
    (h : apply_transaction st a tx = .ok (a', st2)) :
    AccountOk a' ∧ a'.client = a.client ∧ st2.accounts = st.accounts ∧
      (∀ p ∈ st2.deposits, DepositOk p.2) := by
  obtain ⟨hbal, hav, hhe⟩ := ha
  cases tx with
  | Deposit i amt u =>
    have hamt : 0 ≤ amt.val := nonneg_of_deposit_guard hneg
    rw [apply_transaction] at h
    cases h
    refine ⟨⟨?_, ?_, hhe⟩, rfl, rfl, hdep⟩
    · show (a.total.add amt).val = (a.available.add amt).val + a.held.val
      rw [Amount.val_add, Amount.val_add, hbal]
      ring
    · show 0 ≤ (a.available.add amt).val
      rw [Amount.val_add]
      linarith
  | Withdrawal i amt =>
    rw [apply_transaction] at h
    split at h
    · exact Except.noConfusion h
    · rename_i hlt
      have hle : amt.val ≤ a.available.val :=
        (Amount.lt_false_iff _ _).mp (bool_eq_false hlt)
      cases h
      refine ⟨⟨?_, ?_, hhe⟩, rfl, rfl, hdep⟩
      · show (a.total.sub amt).val = (a.available.sub amt).val + a.held.val
        rw [Amount.val_sub, Amount.val_sub, hbal]
        ring
      · show 0 ≤ (a.available.sub amt).val
        rw [Amount.val_sub]
        linarith
  | Dispute info =>
    rw [apply_transaction] at h
    obtain ⟨hcl, htot, hlk, hacc, hcase⟩ := dispute_ok_spec h
    rcases hcase with ⟨rfl, rfl⟩ | ⟨rinfo, amt, ud, hl, hlt, hud, rfl, rfl⟩
    · exact ⟨⟨hbal, hav, hhe⟩, rfl, rfl, hdep⟩
    · have hamt : 0 ≤ amt.val := hdep _ (kvLookup_mem hl) _ _ _ rfl
      have hle : amt.val ≤ a.available.val := (Amount.lt_false_iff _ _).mp hlt
      refine ⟨⟨?_, ?_, ?_⟩, rfl, rfl, ?_⟩
      · show a.total.val = (a.available.sub amt).val + (a.held.add amt).val
        rw [Amount.val_sub, Amount.val_add, hbal]
        ring
      · show 0 ≤ (a.available.sub amt).val
        rw [Amount.val_sub]
        linarith
      · show 0 ≤ (a.held.add amt).val
        rw [Amount.val_add]
        linarith
      · exact depAll_kvModify (fun t ht => depositOk_set ht true) hdep _
  | Resolve info =>
    rw [apply_transaction] at h
    obtain ⟨hcl, htot, hlk, hacc, hcase⟩ := resolve_ok_spec h
    rcases hcase with ⟨rfl, rfl⟩ | ⟨rinfo, amt, ud, hl, hlt, hud, rfl, rfl⟩
    · exact ⟨⟨hbal, hav, hhe⟩, rfl, rfl, hdep⟩
    · have hamt : 0 ≤ amt.val := hdep _ (kvLookup_mem hl) _ _ _ rfl
      have hle : amt.val ≤ a.held.val := (Amount.lt_false_iff _ _).mp hlt
      refine ⟨⟨?_, ?_, ?_⟩, rfl, rfl, ?_⟩
      · show a.total.val = (a.available.add amt).val + (a.held.sub amt).val
        rw [Amount.val_sub, Amount.val_add, hbal]
        ring
      · show 0 ≤ (a.available.add amt).val
        rw [Amount.val_add]
        linarith
      · show 0 ≤ (a.held.sub amt).val
        rw [Amount.val_sub]
        linarith
      · exact depAll_kvModify (fun t ht => depositOk_set ht false) hdep _
  | ChargeBack info =>
    rw [apply_transaction] at h
    obtain ⟨hcl, hava, hacc, hcase⟩ := chargeback_ok_spec h
    rcases hcase with ⟨rfl, rfl⟩ | ⟨rinfo, amt, ud, hl, hlt, hud, rfl, rfl⟩
    · exact ⟨⟨hbal, hav, hhe⟩, rfl, rfl, hdep⟩
    · have hamt : 0 ≤ amt.val := hdep _ (kvLookup_mem hl) _ _ _ rfl
      have hle : amt.val ≤ a.held.val := (Amount.lt_false_iff _ _).mp hlt
      refine ⟨⟨?_, hav, ?_⟩, rfl, rfl, ?_⟩
      · show (a.total.sub amt).val = a.available.val + (a.held.sub amt).val
        rw [Amount.val_sub, Amount.val_sub, hbal]
        ring
      · show 0 ≤ (a.held.sub amt).val
        rw [Amount.val_sub]
        linarith
      · exact depAll_kvModify (fun t ht => depositOk_set ht false) hdep _

theorem apply_ok_state {st st2 : MemoryStore} {a a' : Account} {tx : Transaction}
    (h : apply_transaction st a tx = .ok (a', st2)) :
    st2.accounts = st.accounts ∧
    (st2.deposits = st.deposits ∨
      ∃ id b, st2.deposits = kvModify st.deposits id (·.set_under_dispute b)) := by
  cases tx with
  | Deposit i amt u =>
    rw [apply_transaction] at h
    cases h
    exact ⟨rfl, Or.inl rfl⟩
  | Withdrawal i amt =>
    rw [apply_transaction] at h
    split at h
    · exact Except.noConfusion h
    · cases h
      exact ⟨rfl, Or.inl rfl⟩
  | Dispute info =>
    rw [apply_transaction] at h
    obtain ⟨-, -, -, hacc, hcase⟩ := dispute_ok_spec h
    refine ⟨hacc, ?_⟩
    rcases hcase with ⟨-, rfl⟩ | ⟨rinfo, amt, ud, -, -, -, -, rfl⟩
    · exact Or.inl rfl
    · exact Or.inr ⟨rinfo.id, true, rfl⟩
  | Resolve info =>
    rw [apply_transaction] at h
    obtain ⟨-, -, -, hacc, hcase⟩ := resolve_ok_spec h
    refine ⟨hacc, ?_⟩
    rcases hcase with ⟨-, rfl⟩ | ⟨rinfo, amt, ud, -, -, -, -, rfl⟩
    · exact Or.inl rfl
    · exact Or.inr ⟨rinfo.id, false, rfl⟩
  | ChargeBack info =>
    rw [apply_transaction] at h
    obtain ⟨-, -, hacc, hcase⟩ := chargeback_ok_spec h
    refine ⟨hacc, ?_⟩
    rcases hcase with ⟨-, rfl⟩ | ⟨rinfo, amt, ud, -, -, -, -, rfl⟩
    · exact Or.inl rfl
    · exact Or.inr ⟨rinfo.id, false, rfl⟩

theorem processInner_ok_spec {f : Bool} {st1 st' : MemoryStore} {a' : Account}
    {tx : Transaction} (h : processInner f st1 tx = .ok (a', st')) :
    f = false ∧ (st1.get_account tx.info.client_id).locked = false ∧
      ∃ st2, apply_transaction st1 (st1.get_account tx.info.client_id) tx = .ok (a', st2) ∧
        st' = st2.upsert_account a' := by
  unfold processInner at h
  split at h
  · exact Except.noConfusion h
  · rename_i hlock
    split at h
    · exact Except.noConfusion h
    · rename_i a0 st2 happ
      split at h
      · exact Except.noConfusion h
      · rename_i hf
        cases h
        exact ⟨bool_eq_false hf, bool_eq_false hlock, st2, happ, rfl⟩

theorem processInner_error_locked {f : Bool} {st1 stE : MemoryStore} {e : EngineError}
    {tx : Transaction} (h : processInner f st1 tx = .error (e, stE))
    (hlock : (st1.get_account tx.info.client_id).locked = true) :
    e = .LockedAccount tx.info.client_id tx.info.id ∧ stE = st1 := by
  unfold processInner at h
  rw [if_pos hlock] at h
  cases h
  exact ⟨rfl, rfl⟩

theorem processInner_error_spec {f : Bool} {st1 stE : MemoryStore} {e : EngineError}
    {tx : Transaction} (h : processInner f st1 tx = .error (e, stE)) :
    (stE = st1 ∨
      ∃ a' st2, apply_transaction st1 (st1.get_account tx.info.client_id) tx = .ok (a', st2) ∧
        stE = st2 ∧ e = .TransactionNotCommited (.AccessError "Test Error")) := by
  unfold processInner at h
  split at h
  · cases h
    exact Or.inl rfl
  · split at h
    · cases h
      exact Or.inl rfl
    · rename_i a0 st2 happ
      split at h
      · cases h
        exact Or.inr ⟨a0, _, happ, rfl, rfl⟩
      · exact Except.noConfusion h

theorem create_ok_spec {st st1 : MemoryStore} {tx : Transaction}
    (hneg : tx.has_negative_amount = false)
    (hdep : ∀ p ∈ st.deposits, DepositOk p.2)
    (h : st.create_transaction tx = .ok st1) :
    st1.accounts = st.accounts ∧ (∀ p ∈ st1.deposits, DepositOk p.2) ∧
    (st1.deposits = st.deposits ∨
      (tx.isDeposit = true ∧ kvLookup st.deposits tx.info.id = none ∧
        st1.deposits = kvInsert st.deposits tx.info.id tx)) := by
  cases tx with
  | Deposit i amt u =>
    rw [MemoryStore.create_transaction] at h
    split at h
    · exact Except.noConfusion h
    · rename_i hl
      cases h
      refine ⟨rfl, ?_, Or.inr ⟨rfl, hl, rfl⟩⟩
      intro p hp
      rcases mem_kvInsert hp with hp' | rfl
      · exact hdep p hp'
      · intro j b v he
        cases he
        exact nonneg_of_deposit_guard hneg
  | Withdrawal i amt =>
    rw [MemoryStore.create_transaction] at h
    cases h
    exact ⟨rfl, hdep, Or.inl rfl⟩
  | Dispute info =>
    rw [MemoryStore.create_transaction] at h
    cases h
    exact ⟨rfl, hdep, Or.inl rfl⟩
  | Resolve info =>
    rw [MemoryStore.create_transaction] at h
    cases h
    exact ⟨rfl, hdep, Or.inl rfl⟩
  | ChargeBack info =>
    rw [MemoryStore.create_transaction] at h
    cases h
    exact ⟨rfl, hdep, Or.inl rfl⟩

/-! ### The invariant is preserved by every `process_transaction` call -/

theorem inv_step {st : MemoryStore} (hInv : Inv st) (s : Transaction × Bool) :
    Inv (runStep st s) := by
  obtain ⟨tx, f⟩ := s
  rw [runStep]
  unfold process_transaction
  split
  · exact hInv
  · rename_i hneg
    split
    · exact hInv
    · rename_i st1 hcreate
      obtain ⟨hacc1, hdep1, -⟩ :=
        create_ok_spec (bool_eq_false hneg) hInv.dep hcreate
      have hInv1 : Inv st1 := ⟨by rw [hacc1]; exact hInv.acct, hdep1⟩
      split
      · rename_i a' st' hinner
        obtain ⟨-, -, st2, happly, rfl⟩ := processInner_ok_spec hinner
        obtain ⟨hok, hcl, hacc2, hdep2⟩ :=
          apply_ok_spec hdep1 (hInv1.get_account_ok _).2 (bool_eq_false hneg) happly
        constructor
        · intro p hp
          rcases mem_kvInsert hp with hp' | rfl
          · exact hInv1.acct p (by rw [← hacc2]; exact hp')
          · exact ⟨rfl, hok⟩
        · exact hdep2
      · rename_i e stE hinner
        have hInvE : Inv stE := by
          rcases processInner_error_spec hinner with rfl | ⟨a0, st2, happly, rfl, -⟩
          · exact hInv1
          · obtain ⟨-, -, hacc2, hdep2⟩ :=
              apply_ok_spec hdep1 (hInv1.get_account_ok _).2 (bool_eq_false hneg) happly
            exact ⟨by rw [hacc2]; exact hInv1.acct, hdep2⟩
        split
        · exact ⟨hInvE.acct, depAll_kvErase hInvE.dep _⟩
        · exact ⟨hInvE.acct, depAll_kvErase hInvE.dep _⟩
        · split
          · exact ⟨hInvE.acct, depAll_kvModify (fun t ht => depositOk_toggle ht) hInvE.dep _⟩
          · exact hInvE

theorem inv_runFrom {st : MemoryStore} (hInv : Inv st)
    (steps : List (Transaction × Bool)) : Inv (runFrom st steps) := by
  induction steps generalizing st with
  | nil => exact hInv
  | cons s rest ih => exact ih (inv_step hInv s)

theorem inv_empty : Inv MemoryStore.empty := by
  constructor <;> intro p hp <;> exact absurd hp (List.not_mem_nil p)

theorem inv_run (steps : List (Transaction × Bool)) : Inv (run steps) :=
  inv_runFrom inv_empty steps

/-! ### Process-level state lemmas -/

theorem get_account_congr {st1 st : MemoryStore} (h : st1.accounts = st.accounts)
    (c : Nat) : st1.get_account c = st.get_account c := by
  unfold MemoryStore.get_account
  rw [h]

theorem apply_ok_client {st st2 : MemoryStore} {a a' : Account} {tx : Transaction}
    (h : apply_transaction st a tx = .ok (a', st2)) : a'.client = a.client := by
  cases tx with
  | Deposit i amt u =>
    rw [apply_transaction] at h
    cases h
    rfl
  | Withdrawal i amt =>
    rw [apply_transaction] at h
    split at h
    · exact Except.noConfusion h
    · cases h
      rfl
  | Dispute info =>
    rw [apply_transaction] at h
    exact (dispute_ok_spec h).1
  | Resolve info =>
    rw [apply_transaction] at h
    exact (resolve_ok_spec h).1
  | ChargeBack info =>
    rw [apply_transaction] at h
    exact (chargeback_ok_spec h).1

theorem create_ok_accounts {st st1 : MemoryStore} {tx : Transaction}
    (h : st.create_transaction tx = .ok st1) : st1.accounts = st.accounts := by
  cases tx with
  | Deposit i amt u =>
    rw [MemoryStore.create_transaction] at h
    split at h
    · exact Except.noConfusion h
    · cases h
      rfl
  | Withdrawal i amt =>
    rw [MemoryStore.create_transaction] at h
    cases h
    rfl
  | Dispute info =>
    rw [MemoryStore.create_transaction] at h
    cases h
    rfl
  | Resolve info =>
    rw [MemoryStore.create_transaction] at h
    cases h
    rfl
  | ChargeBack info =>
    rw [MemoryStore.create_transaction] at h
    cases h
    rfl

theorem process_error_accounts {f : Bool} {st st' : MemoryStore} {tx : Transaction}
    {e : EngineError} (h : process_transaction f st tx = (.error e, st')) :
    st'.accounts = st.accounts := by
  unfold process_transaction at h
  split at h
  · cases h
    rfl
  · rename_i hneg
    split at h
    · cases h
      rfl
    · rename_i st1 hcreate
      have hacc1 := create_ok_accounts hcreate
      split at h
      · exact absurd (congrArg Prod.fst h) (by simp)
      · rename_i e0 stE hinner
        have haccE : stE.accounts = st.accounts := by
          rcases processInner_error_spec hinner with rfl | ⟨a0, st2, happly, rfl, -⟩
          · exact hacc1
          · exact ((apply_ok_state happly).1).trans hacc1
        split at h
        · cases h
          exact haccE
        · cases h
          exact haccE
        · split at h
          · cases h
            exact haccE
          · cases h
            exact haccE

theorem process_ok_spec {f : Bool} {st st' : MemoryStore} {tx : Transaction}
    {a' : Account} (h : process_transaction f st tx = (.ok a', st')) :
    tx.has_negative_amount = false ∧
    (st.get_account tx.info.client_id).locked = false ∧
    a'.client = (st.get_account tx.info.client_id).client ∧
    st'.accounts = kvInsert st.accounts a'.client a' ∧
    ∃ st1 st2, st.create_transaction tx = .ok st1 ∧ st1.accounts = st.accounts ∧
      apply_transaction st1 (st.get_account tx.info.client_id) tx = .ok (a', st2) := by
  unfold process_transaction at h
  split at h
  · exact absurd (congrArg Prod.fst h) (by simp)
  · rename_i hneg
    split at h
    · exact absurd (congrArg Prod.fst h) (by simp)
    · rename_i st1 hcreate
      have hacc1 := create_ok_accounts hcreate
      split at h
      · rename_i a0 st0 hinner
        cases h
        obtain ⟨-, hlock1, st2, happly, rfl⟩ := processInner_ok_spec hinner
        rw [get_account_congr hacc1] at happly hlock1
        refine ⟨bool_eq_false hneg, hlock1, apply_ok_client happly, ?_,
          st1, st2, hcreate, hacc1, happly⟩
        show (st2.upsert_account a').accounts = kvInsert st.accounts a'.client a'
        unfold MemoryStore.upsert_account
        rw [(apply_ok_state happly).1, hacc1]
      · rename_i e0 stE hinner
        split at h
        · exact absurd (congrArg Prod.fst h) (by simp)
        · exact absurd (congrArg Prod.fst h) (by simp)
        · split at h
          · exact absurd (congrArg Prod.fst h) (by simp)
          · exact absurd (congrArg Prod.fst h) (by simp)

/-! ### Conservation of money -/

theorem step_sum {st : MemoryStore} (hInv : Inv st) (s : Transaction × Bool)
    (hcb : chargebackOk st s = false) :
    sumTotals (runStep st s) = sumTotals st + stepFlow st s := by
  obtain ⟨tx, f⟩ := s
  rcases hres : process_transaction f st tx with ⟨res, st'⟩
  have hstep : runStep st (tx, f) = st' := by rw [runStep, hres]
  cases res with
  | error e =>
    have hacc := process_error_accounts hres
    have hflow : stepFlow st (tx, f) = 0 := by
      cases tx <;> simp [stepFlow, hres]
    rw [hstep, hflow, sumTotals, sumTotals, hacc, add_zero]
  | ok a' =>
    obtain ⟨hneg, -, hcl, hacc', st1, st2, hcreate, hacc1, happly⟩ := process_ok_spec hres
    have hold : ((kvLookup st.accounts a'.client).map (fun x => x.total.val)).getD 0
        = (st.get_account tx.info.client_id).total.val := by
      rw [hcl, (hInv.get_account_ok tx.info.client_id).1]
      unfold MemoryStore.get_account
      cases hl : kvLookup st.accounts tx.info.client_id
      · simp [Account.new, Amount.val_zero]
      · simp
    have hsum : sumTotals st' = sumTotals st + a'.total.val
        - (st.get_account tx.info.client_id).total.val := by
      rw [sumTotals, sumTotals, hacc', accTotals_kvInsert, hold]
    rw [hstep, hsum]
    cases tx with
    | Deposit i amt u =>
      have hflow : stepFlow st (.Deposit i amt u, f) = amt.val := by
        simp [stepFlow, hres]
      rw [apply_transaction] at happly
      cases happly
      rw [hflow]
      show sumTotals st + ((st.get_account i.client_id).total.add amt).val
          - (st.get_account i.client_id).total.val = sumTotals st + amt.val
      rw [Amount.val_add]
      ring
    | Withdrawal i amt =>
      have hflow : stepFlow st (.Withdrawal i amt, f) = -amt.val := by
        simp [stepFlow, hres]
      rw [apply_transaction] at happly
      split at happly
      · exact Except.noConfusion happly
      · cases happly
        rw [hflow]
        show sumTotals st + ((st.get_account i.client_id).total.sub amt).val
            - (st.get_account i.client_id).total.val = sumTotals st + -amt.val
        rw [Amount.val_sub]
        ring
    | Dispute info =>
      have hflow : stepFlow st (.Dispute info, f) = 0 := by
        simp [stepFlow, hres]
      rw [apply_transaction] at happly
      rw [hflow, (dispute_ok_spec happly).2.1]
      ring
    | Resolve info =>
      have hflow : stepFlow st (.Resolve info, f) = 0 := by
        simp [stepFlow, hres]
      rw [apply_transaction] at happly
      rw [hflow, (resolve_ok_spec happly).2.1]
      ring
    | ChargeBack info =>
      exfalso
      have hcb' : chargebackOk st (.ChargeBack info, f) = true := by
        simp [chargebackOk, hres]
      rw [hcb'] at hcb
      exact Bool.noConfusion hcb

theorem conservation_runFrom {st : MemoryStore} (hInv : Inv st)
    (steps : List (Transaction × Bool)) (hcb : noChargeback st steps = true) :
    sumTotals (runFrom st steps) = sumTotals st + flowVal st steps := by
  induction steps generalizing st with
  | nil => simp [runFrom, flowVal]
  | cons s rest ih =>
    rw [noChargeback, Bool.and_eq_true, Bool.not_eq_true'] at hcb
    obtain ⟨h1, h2⟩ := hcb
    have hfold : runFrom st (s :: rest) = runFrom (runStep st s) rest := by
      rw [runFrom, runFrom, List.foldl_cons]
    rw [hfold, ih (inv_step hInv s) h2, step_sum hInv s h1, flowVal]
    ring

/-! ### Account rows are never deleted -/

theorem presence_step {st : MemoryStore} (c : Nat) (s : Transaction × Bool)
    (h : kvLookup st.accounts c ≠ none) :
    kvLookup (runStep st s).accounts c ≠ none := by
  obtain ⟨tx, f⟩ := s
  rcases hres : process_transaction f st tx with ⟨res, st'⟩
  have hstep : runStep st (tx, f) = st' := by rw [runStep, hres]
  rw [hstep]
  cases res with
  | error e =>
    rw [process_error_accounts hres]
    exact h
  | ok a' =>
    obtain ⟨-, -, -, hacc', -⟩ := process_ok_spec hres
    rw [hacc']
    by_cases hc : c = a'.client
    · subst hc
      rw [kvLookup_kvInsert_self]
      exact Option.noConfusion
    · rw [kvLookup_kvInsert_ne _ _ _ _ hc]
      exact h

theorem presence_runFrom {st : MemoryStore} {c : Nat}
    (h : kvLookup st.accounts c ≠ none) (steps : List (Transaction × Bool)) :
    kvLookup (runFrom st steps).accounts c ≠ none := by
  induction steps generalizing st with
  | nil => exact h
  | cons s rest ih => exact ih (presence_step c s h)

/-! ### The claims -/

/-- C1: for every sequence of transactions processed from an initially
empty store, every account held in the store at a quiescent point
(between two `process_transaction` calls) satisfies
`total == available + held` (decimal equality is value equality). -/
theorem claim1_total_eq_available_add_held
    (steps : List (Transaction × Bool)) (p : Nat × Account)
    (hp : p ∈ (run steps).accounts) :
    p.2.total.val = p.2.available.val + p.2.held.val :=
  ((inv_run steps).acct p hp).2.1

def w1Steps : List (Transaction × Bool) :=
  [(Transaction.Deposit ⟨1, 1⟩ ⟨100, 0⟩ false, false)]

def w1Account : Account := ⟨1, ⟨100, 0⟩, ⟨0, 0⟩, ⟨100, 0⟩, false⟩

theorem claim1_witness :
    ((1, w1Account) ∈ (run w1Steps).accounts) ∧
    w1Account.total.val = w1Account.available.val + w1Account.held.val :=
  ⟨by decide, claim1_total_eq_available_add_held w1Steps (1, w1Account) (by decide)⟩

/-- C10: starting from an empty store, after every sequence of
`process_transaction` calls, every stored account has nonnegative
available, held and total balances. -/
theorem claim10_balances_nonneg
    (steps : List (Transaction × Bool)) (p : Nat × Account)
    (hp : p ∈ (run steps).accounts) :
    0 ≤ p.2.available.val ∧ 0 ≤ p.2.held.val ∧ 0 ≤ p.2.total.val := by
  obtain ⟨hb, ha, hh⟩ := ((inv_run steps).acct p hp).2
  refine ⟨ha, hh, ?_⟩
  rw [hb]
  linarith

def w10Steps : List (Transaction × Bool) :=
  [(Transaction.Deposit ⟨1, 1⟩ ⟨100, 0⟩ false, false),
   (Transaction.Dispute ⟨1, 1⟩, false)]

def w10Account : Account := ⟨1, ⟨0, 0⟩, ⟨100, 0⟩, ⟨100, 0⟩, false⟩

theorem claim10_witness :
    ((1, w10Account) ∈ (run w10Steps).accounts) ∧
    (0 ≤ w10Account.available.val ∧ 0 ≤ w10Account.held.val ∧
      0 ≤ w10Account.total.val) :=
  ⟨by decide, claim10_balances_nonneg w10Steps (1, w10Account) (by decide)⟩

/-- C2: for every run from the empty store containing no successful
chargeback, the sum of `total` over all stored accounts equals the sum of
the successful deposit amounts minus the sum of the successful withdrawal
amounts. -/
theorem claim2_conservation (steps : List (Transaction × Bool))
    (hcb : noChargeback MemoryStore.empty steps = true) :
    sumTotals (run steps) = flowVal MemoryStore.empty steps := by
  have h := conservation_runFrom inv_empty steps hcb
  rw [run, h]
  simp [sumTotals, accTotals, MemoryStore.empty]

def w2Steps : List (Transaction × Bool) :=
  [(Transaction.Deposit ⟨1, 1⟩ ⟨10, 0⟩ false, false),
   (Transaction.Withdrawal ⟨2, 1⟩ ⟨3, 0⟩, false),
   (Transaction.Dispute ⟨1, 1⟩, false)]

theorem claim2_witness :
    noChargeback MemoryStore.empty w2Steps = true ∧
    sumTotals (run w2Steps) = flowVal MemoryStore.empty w2Steps :=
  ⟨by decide, claim2_conservation w2Steps (by decide)⟩

/-- C9 counterexample: the client of a successfully parsed transaction
need not appear in the final report.  A single withdrawal for client 1
fails with `InsufficientAvailableFunds` on the empty store, no account is
upserted, and the report is empty. -/
theorem claim9_counterexample :
    (process_transaction false MemoryStore.empty
        (Transaction.Withdrawal ⟨1, 1⟩ ⟨1, 0⟩)).1
      = .error .InsufficientAvailableFunds ∧
    (Transaction.Withdrawal ⟨1, 1⟩ ⟨1, 0⟩).info.client_id = 1 ∧
    report (run [(Transaction.Withdrawal ⟨1, 1⟩ ⟨1, 0⟩, false)]) = [] := by
  refine ⟨rfl, rfl, rfl⟩

/-- C9 amended: the final report contains a row for every client with at
least one successful transaction; a client all of whose transactions
failed has no row. -/
theorem claim9_amended (pre : List (Transaction × Bool)) (s : Transaction × Bool)
    (post : List (Transaction × Bool)) (a : Account)
    (hok : (process_transaction s.2 (run pre) s.1).1 = .ok a) :
    kvLookup (run (pre ++ s :: post)).accounts s.1.info.client_id ≠ none := by
  have hInv := inv_run pre
  have hfull : process_transaction s.2 (run pre) s.1 =
      (.ok a, (process_transaction s.2 (run pre) s.1).2) := by
    rw [← hok]
  obtain ⟨-, -, hcl, hacc', -⟩ := process_ok_spec hfull
  have hkey : a.client = s.1.info.client_id := by
    rw [hcl, (hInv.get_account_ok _).1]
  have h1 : kvLookup ((process_transaction s.2 (run pre) s.1).2).accounts
      s.1.info.client_id ≠ none := by
    rw [hacc', ← hkey, kvLookup_kvInsert_self]
    exact Option.noConfusion
  have hsplit : run (pre ++ s :: post) =
      runFrom ((process_transaction s.2 (run pre) s.1).2) post := by
    rw [run, runFrom, List.foldl_append, List.foldl_cons]
    rfl
  rw [hsplit]
  exact presence_runFrom h1 post

def w9Tx : Transaction := Transaction.Deposit ⟨1, 1⟩ ⟨10, 0⟩ false

def w9Account : Account := ⟨1, ⟨10, 0⟩, ⟨0, 0⟩, ⟨10, 0⟩, false⟩

theorem claim9_witness :
    (process_transaction false (run []) w9Tx).1 = .ok w9Account ∧
    kvLookup (run ([] ++ (w9Tx, false) :: [])).accounts w9Tx.info.client_id ≠ none :=
  ⟨by rfl, claim9_amended [] (w9Tx, false) [] w9Account (by rfl)⟩

/-- The case analysis of a Dispute processed against an unlocked account,
with the guards of `engine.rs`'s `dispute` handler evaluated in the
source's order (each case negates the guards before it). -/
def DisputeCasesSpec (st : MemoryStore) (info : TransactionInfo) : Prop :=
    (kvLookup st.deposits info.id = none →
      process_transaction false st (.Dispute info) =
        (.ok (st.get_account info.client_id),
          ⟨st.deposits,
           kvInsert st.accounts (st.get_account info.client_id).client
             (st.get_account info.client_id)⟩)) ∧
    (∀ rtx, kvLookup st.deposits info.id = some rtx → rtx.isDeposit = false →
      process_transaction false st (.Dispute info) =
        (.error (.WrongTransactionRef info.id), st)) ∧
    (∀ rinfo amt ud, kvLookup st.deposits info.id = some (.Deposit rinfo amt ud) →
      rinfo.client_id ≠ (st.get_account info.client_id).client →
      process_transaction false st (.Dispute info) =
        (.error (.TransactionRefWrongClient rinfo.id rinfo.client_id
          (st.get_account info.client_id).client), st)) ∧
    (∀ rinfo amt, kvLookup st.deposits info.id = some (.Deposit rinfo amt true) →
      rinfo.client_id = (st.get_account info.client_id).client →
      process_transaction false st (.Dispute info) =
        (.error (.DoubleDispute rinfo.id), st)) ∧
    (∀ rinfo amt, kvLookup st.deposits info.id = some (.Deposit rinfo amt false) →
      rinfo.client_id = (st.get_account info.client_id).client →
      (st.get_account info.client_id).available.lt amt = true →
      process_transaction false st (.Dispute info) =
        (.error .InsufficientAvailableFunds, st)) ∧
    (∀ rinfo amt, kvLookup st.deposits info.id = some (.Deposit rinfo amt false) →
      rinfo.client_id = (st.get_account info.client_id).client →
      (st.get_account info.client_id).available.lt amt = false →
      (process_transaction false st (.Dispute info) =
        (.ok { st.get_account info.client_id with
                available := (st.get_account info.client_id).available.sub amt,
                held := (st.get_account info.client_id).held.add amt },
          ⟨kvModify st.deposits rinfo.id (·.set_under_dispute true),
           kvInsert st.accounts (st.get_account info.client_id).client
             { st.get_account info.client_id with
                available := (st.get_account info.client_id).available.sub amt,
                held := (st.get_account info.client_id).held.add amt }⟩) ∧
       ((st.get_account info.client_id).available.sub amt).val =
         (st.get_account info.client_id).available.val - amt.val ∧
       ((st.get_account info.client_id).held.add amt).val =
         (st.get_account info.client_id).held.val + amt.val ∧
       (rinfo.id = info.id →
         kvLookup (kvModify st.deposits rinfo.id (·.set_under_dispute true)) info.id =
           some (.Deposit rinfo amt true))))

/-- C4: a Dispute processed against an unlocked account evaluates its
checks in exactly this order: absent reference (success, account
unchanged), reference not a Deposit (`WrongTransactionRef`), deposit of a
different client (`TransactionRefWrongClient`), deposit already under
dispute (`DoubleDispute`), `available` below the deposit's amount
(`InsufficientAvailableFunds`); otherwise available decreases and held
increases by the deposit's amount, total is unchanged, and the referenced
deposit's `under_dispute` flag is set to true. -/
theorem claim4_dispute_cases (st : MemoryStore) (info : TransactionInfo)
    (hlock : (st.get_account info.client_id).locked = false) :
    DisputeCasesSpec st info := by
  unfold DisputeCasesSpec
  have hnm : ¬ ((Transaction.Dispute info).has_negative_amount = true) := by
    simp only [Transaction.has_negative_amount, Transaction.amount]
    exact Bool.false_ne_true
  have hcr : st.create_transaction (.Dispute info) = .ok st := by
    rw [MemoryStore.create_transaction]
  refine ⟨?_, ?_, ?_, ?_, ?_, ?_⟩
  · intro hl
    have hd : dispute st (st.get_account info.client_id) info =
        .ok (st.get_account info.client_id, st) := by
      simp only [dispute, MemoryStore.get_transaction, hl]
    simp only [process_transaction, Transaction.info, if_neg hnm, hcr, processInner,
      hlock, Bool.false_eq_true, if_false, apply_transaction, hd,
      MemoryStore.upsert_account]
  · intro rtx hl hnd
    have hd : dispute st (st.get_account info.client_id) info =
        .error (.WrongTransactionRef info.id) := by
      simp only [dispute, MemoryStore.get_transaction, hl]
      cases rtx with
      | Deposit i0 a0 u0 => simp [Transaction.isDeposit] at hnd
      | Withdrawal i0 a0 => rfl
      | Dispute i0 => rfl
      | Resolve i0 => rfl
      | ChargeBack i0 => rfl
    simp only [process_transaction, Transaction.info, if_neg hnm, hcr, processInner,
      hlock, Bool.false_eq_true, if_false, apply_transaction, hd]
  · intro rinfo amt ud hl hne
    have hd : dispute st (st.get_account info.client_id) info =
        .error (.TransactionRefWrongClient rinfo.id rinfo.client_id
          (st.get_account info.client_id).client) := by
      simp only [dispute, MemoryStore.get_transaction, hl]
      rw [if_pos (fun h => hne h.symm)]
    simp only [process_transaction, Transaction.info, if_neg hnm, hcr, processInner,
      hlock, Bool.false_eq_true, if_false, apply_transaction, hd]
  · intro rinfo amt hl hcl
    have hd : dispute st (st.get_account info.client_id) info =
        .error (.DoubleDispute rinfo.id) := by
      simp only [dispute, MemoryStore.get_transaction, hl, hcl]
      simp
    simp only [process_transaction, Transaction.info, if_neg hnm, hcr, processInner,
      hlock, Bool.false_eq_true, if_false, apply_transaction, hd]
  · intro rinfo amt hl hcl hlt
    have hd : dispute st (st.get_account info.client_id) info =
        .error .InsufficientAvailableFunds := by
      simp only [dispute, MemoryStore.get_transaction, hl, hcl, hlt]
      simp
    simp only [process_transaction, Transaction.info, if_neg hnm, hcr, processInner,
      hlock, Bool.false_eq_true, if_false, apply_transaction, hd]
  · intro rinfo amt hl hcl hlt
    have hd : dispute st (st.get_account info.client_id) info =
        .ok ({ st.get_account info.client_id with
                available := (st.get_account info.client_id).available.sub amt,
                held := (st.get_account info.client_id).held.add amt },
          st.set_transaction_under_dispute rinfo.id true) := by
      simp only [dispute, MemoryStore.get_transaction, hl, hcl, hlt]
      simp
    refine ⟨?_, Amount.val_sub _ _, Amount.val_add _ _, ?_⟩
    · simp only [process_transaction, Transaction.info, if_neg hnm, hcr, processInner,
        hlock, Bool.false_eq_true, if_false, apply_transaction, hd,
        MemoryStore.set_transaction_under_dispute, MemoryStore.upsert_account]
    · intro hid
      rw [hid, kvLookup_kvModify_self, hl]
      rfl

theorem create_error_spec {st : MemoryStore} {tx : Transaction} {e0 : StoreError}
    (h : st.create_transaction tx = .error e0) :
    tx.isDeposit = true ∧ kvLookup st.deposits tx.info.id ≠ none ∧
      e0 = .AlreadyExists tx.info.id := by
  cases tx with
  | Deposit i amt u =>
    rw [MemoryStore.create_transaction] at h
    cases hl : kvLookup st.deposits (Transaction.Deposit i amt u).info.id with
    | none =>
      rw [hl] at h
      exact Except.noConfusion h
    | some t =>
      rw [hl] at h
      cases h
      exact ⟨rfl, Option.noConfusion, rfl⟩
  | Withdrawal i amt =>
    rw [MemoryStore.create_transaction] at h
    exact Except.noConfusion h
  | Dispute i =>
    rw [MemoryStore.create_transaction] at h
    exact Except.noConfusion h
  | Resolve i =>
    rw [MemoryStore.create_transaction] at h
    exact Except.noConfusion h
  | ChargeBack i =>
    rw [MemoryStore.create_transaction] at h
    exact Except.noConfusion h

theorem create_ok_deposit {st st1 : MemoryStore} {i : TransactionInfo}
    {amt : Amount} {u : Bool}
    (h : st.create_transaction (.Deposit i amt u) = .ok st1) :
    kvLookup st.deposits (Transaction.Deposit i amt u).info.id = none ∧
    st1 = ⟨kvInsert st.deposits (Transaction.Deposit i amt u).info.id
      (.Deposit i amt u), st.accounts⟩ := by
  rw [MemoryStore.create_transaction] at h
  cases hl : kvLookup st.deposits (Transaction.Deposit i amt u).info.id with
  | some t =>
    rw [hl] at h
    exact Except.noConfusion h
  | none =>
    rw [hl] at h
    cases h
    exact ⟨rfl, rfl⟩

theorem toggle_set_restore (l : List (Nat × Transaction)) (id : Nat)
    (rinfo : TransactionInfo) (amt : Amount) (ud b : Bool)
    (hl : kvLookup l id = some (.Deposit rinfo amt ud)) (hb : b = !ud) :
    kvModify (kvModify l id (·.set_under_dispute b)) id
      Transaction.toggle_under_dispute = l := by
  rw [kvModify_kvModify]
  apply kvModify_eq_self
  intro v hv
  rw [hl] at hv
  cases hv
  subst hb
  cases ud <;> rfl

def c3St : MemoryStore :=
  ⟨[(1, .Deposit ⟨1, 1⟩ ⟨10, 0⟩ false)],
   [(1, ⟨1, ⟨0, 0⟩, ⟨0, 0⟩, ⟨0, 0⟩, false⟩)]⟩

/-- C3 counterexample: a failing withdrawal whose transaction id equals a
stored deposit's id runs the Deposit/Withdrawal rollback branch, whose
`delete_transaction` removes that innocent deposit: the deposits map after
the error differs from the map before the call. -/
theorem claim3_counterexample :
    (process_transaction false c3St (.Withdrawal ⟨1, 1⟩ ⟨5, 0⟩)).1 =
      .error .InsufficientAvailableFunds ∧
    (process_transaction false c3St (.Withdrawal ⟨1, 1⟩ ⟨5, 0⟩)).2.deposits = [] ∧
    (process_transaction false c3St (.Withdrawal ⟨1, 1⟩ ⟨5, 0⟩)).2.deposits ≠
      c3St.deposits :=
  ⟨rfl, rfl, by decide⟩

/-- C3 amended: when `process_transaction` returns an error the accounts
map is unchanged, and the deposits map is unchanged as well, with two
exceptions visible in the rollback branch: a failing Withdrawal deletes
the deposits entry keyed by its own transaction id (for a fresh id a
no-op, for a colliding id it deletes that deposit), and a
Dispute/Resolve/Chargeback failing with `TransactionNotCommited` leaves
either the original map (the flag flip of step 5 is undone by the toggle)
or, when the handler had taken an ignore path, the map with the
referenced entry's `under_dispute` flag toggled.  A failing non-negative
duplicate Deposit still returns `AlreadyExists` with the stored deposit
unchanged. -/
theorem claim3_amended (f : Bool) (st : MemoryStore) (tx : Transaction)
    (e : EngineError) (st' : MemoryStore)
    (hwf : ∀ p ∈ st.deposits, p.2.info.id = p.1)
    (h : process_transaction f st tx = (.error e, st')) :
    st'.accounts = st.accounts ∧
    (tx.isDeposit = true → st'.deposits = st.deposits) ∧
    (tx.isWithdrawal = true →
      st'.deposits = st.deposits ∨ st'.deposits = kvErase st.deposits tx.info.id) ∧
    (tx.isDeposit = false → tx.isWithdrawal = false →
      st'.deposits = st.deposits ∨
      st'.deposits = kvModify st.deposits tx.info.id Transaction.toggle_under_dispute) ∧
    (tx.isDeposit = true → tx.has_negative_amount = false →
      kvLookup st.deposits tx.info.id ≠ none → e = .Store (.AlreadyExists tx.info.id)) := by
  refine ⟨process_error_accounts h, ?_, ?_, ?_, ?_⟩
  case _ =>
    intro hdep
    cases tx with
    | Withdrawal i amt => simp [Transaction.isDeposit] at hdep
    | Dispute i => simp [Transaction.isDeposit] at hdep
    | Resolve i => simp [Transaction.isDeposit] at hdep
    | ChargeBack i => simp [Transaction.isDeposit] at hdep
    | Deposit i amt u =>
      unfold process_transaction at h
      split at h
      · cases h
        rfl
      · split at h
        · rename_i e0 hcr
          cases h
          rfl
        · rename_i st1 hcr
          obtain ⟨hnone, rfl⟩ := create_ok_deposit hcr
          split at h
          · exact absurd (congrArg Prod.fst h) (by simp)
          · rename_i e0 stE hinner
            have h2 : ((.error e0 : Except EngineError Account),
                stE.delete_transaction (Transaction.Deposit i amt u).info.id) =
                (.error e, st') := h
            cases h2
            have hstE : stE.deposits =
                kvInsert st.deposits (Transaction.Deposit i amt u).info.id
                  (.Deposit i amt u) := by
              rcases processInner_error_spec hinner with rfl | ⟨a0, st2, happ, rfl, -⟩
              · rfl
              · rw [apply_transaction] at happ
                cases happ
                rfl
            show kvErase stE.deposits (Transaction.Deposit i amt u).info.id = st.deposits
            rw [hstE]
            exact kvErase_kvInsert _ _ _ hnone
  case _ =>
    intro hwd
    cases tx with
    | Deposit i amt u => simp [Transaction.isWithdrawal] at hwd
    | Dispute i => simp [Transaction.isWithdrawal] at hwd
    | Resolve i => simp [Transaction.isWithdrawal] at hwd
    | ChargeBack i => simp [Transaction.isWithdrawal] at hwd
    | Withdrawal i amt =>
      unfold process_transaction at h
      split at h
      · cases h
        exact Or.inl rfl
      · split at h
        · rename_i e0 hcr
          obtain ⟨hdep, -, -⟩ := create_error_spec hcr
          simp [Transaction.isDeposit] at hdep
        · rename_i st1 hcr
          rw [MemoryStore.create_transaction] at hcr
          cases hcr
          split at h
          · exact absurd (congrArg Prod.fst h) (by simp)
          · rename_i e0 stE hinner
            have h2 : ((.error e0 : Except EngineError Account),
                stE.delete_transaction (Transaction.Withdrawal i amt).info.id) =
                (.error e, st') := h
            cases h2
            have hstE : stE.deposits = st.deposits := by
              rcases processInner_error_spec hinner with rfl | ⟨a0, st2, happ, rfl, -⟩
              · rfl
              · rw [apply_transaction] at happ
                split at happ
                · exact Except.noConfusion happ
                · cases happ
                  rfl
            right
            show kvErase stE.deposits (Transaction.Withdrawal i amt).info.id =
              kvErase st.deposits (Transaction.Withdrawal i amt).info.id
            rw [hstE]
  case _ =>
    intro hnd hnw
    cases tx with
    | Deposit i amt u => simp [Transaction.isDeposit] at hnd
    | Withdrawal i amt => simp [Transaction.isWithdrawal] at hnw
    | Dispute info =>
      unfold process_transaction at h
      split at h
      · cases h
        exact Or.inl rfl
      · split at h
        · rename_i e0 hcr
          obtain ⟨hdep, -, -⟩ := create_error_spec hcr
          simp [Transaction.isDeposit] at hdep
        · rename_i st1 hcr
          rw [MemoryStore.create_transaction] at hcr
          cases hcr
          split at h
          · exact absurd (congrArg Prod.fst h) (by simp)
          · rename_i e0 stE hinner
            have h2 : (match e0 with
                | EngineError.TransactionNotCommited _ =>
                  ((.error e0 : Except EngineError Account),
                    stE.toggle_under_dispute (Transaction.Dispute info).info.id)
                | _ => (.error e0, stE)) = (.error e, st') := h
            split at h2
            · cases h2
              rcases processInner_error_spec hinner with rfl | ⟨a0, st2, happ, rfl, -⟩
              · exact Or.inr rfl
              · rw [apply_transaction] at happ
                obtain ⟨-, -, -, -, hcase⟩ := dispute_ok_spec happ
                rcases hcase with ⟨-, rfl⟩ | ⟨rinfo, amt, ud, hl, -, hud, -, rfl⟩
                · exact Or.inr rfl
                · left
                  have hid : rinfo.id = info.id :=
                    hwf _ (kvLookup_mem hl)
                  show kvModify (kvModify st.deposits rinfo.id
                      (·.set_under_dispute true)) info.id
                      Transaction.toggle_under_dispute = st.deposits
                  rw [← hid]
                  rw [← hid] at hl
                  subst hud
                  exact toggle_set_restore _ _ rinfo amt false true hl rfl
            · rename_i hncommit
              cases h2
              rcases processInner_error_spec hinner with rfl | ⟨a0, st2, happ, rfl, hcommit⟩
              · exact Or.inl rfl
              · exact absurd hcommit (fun hc => hncommit _ hc)
    | Resolve info =>
      unfold process_transaction at h
      split at h
      · cases h
        exact Or.inl rfl
      · split at h
        · rename_i e0 hcr
          obtain ⟨hdep, -, -⟩ := create_error_spec hcr
          simp [Transaction.isDeposit] at hdep
        · rename_i st1 hcr
          rw [MemoryStore.create_transaction] at hcr
          cases hcr
          split at h
          · exact absurd (congrArg Prod.fst h) (by simp)
          · rename_i e0 stE hinner
            have h2 : (match e0 with
                | EngineError.TransactionNotCommited _ =>
                  ((.error e0 : Except EngineError Account),
                    stE.toggle_under_dispute (Transaction.Resolve info).info.id)
                | _ => (.error e0, stE)) = (.error e, st') := h
            split at h2
            · cases h2
              rcases processInner_error_spec hinner with rfl | ⟨a0, st2, happ, rfl, -⟩
              · exact Or.inr rfl
              · rw [apply_transaction] at happ
                obtain ⟨-, -, -, -, hcase⟩ := resolve_ok_spec happ
                rcases hcase with ⟨-, rfl⟩ | ⟨rinfo, amt, ud, hl, -, hud, -, rfl⟩
                · exact Or.inr rfl
                · left
                  have hid : rinfo.id = info.id :=
                    hwf _ (kvLookup_mem hl)
                  show kvModify (kvModify st.deposits rinfo.id
                      (·.set_under_dispute false)) info.id
                      Transaction.toggle_under_dispute = st.deposits
                  rw [← hid]
                  rw [← hid] at hl
                  subst hud
                  exact toggle_set_restore _ _ rinfo amt true false hl rfl
            · rename_i hncommit
              cases h2
              rcases processInner_error_spec hinner with rfl | ⟨a0, st2, happ, rfl, hcommit⟩
              · exact Or.inl rfl
              · exact absurd hcommit (fun hc => hncommit _ hc)
    | ChargeBack info =>
      unfold process_transaction at h
      split at h
      · cases h
        exact Or.inl rfl
      · split at h
        · rename_i e0 hcr
          obtain ⟨hdep, -, -⟩ := create_error_spec hcr
          simp [Transaction.isDeposit] at hdep
        · rename_i st1 hcr
          rw [MemoryStore.create_transaction] at hcr
          cases hcr
          split at h
          · exact absurd (congrArg Prod.fst h) (by simp)
          · rename_i e0 stE hinner
            have h2 : (match e0 with
                | EngineError.TransactionNotCommited _ =>
                  ((.error e0 : Except EngineError Account),
                    stE.toggle_under_dispute (Transaction.ChargeBack info).info.id)
                | _ => (.error e0, stE)) = (.error e, st') := h
            split at h2
            · cases h2
              rcases processInner_error_spec hinner with rfl | ⟨a0, st2, happ, rfl, -⟩
              · exact Or.inr rfl
              · rw [apply_transaction] at happ
                obtain ⟨-, -, -, hcase⟩ := chargeback_ok_spec happ
                rcases hcase with ⟨-, rfl⟩ | ⟨rinfo, amt, ud, hl, -, hud, -, rfl⟩
                · exact Or.inr rfl
                · left
                  have hid : rinfo.id = info.id :=
                    hwf _ (kvLookup_mem hl)
                  show kvModify (kvModify st.deposits rinfo.id
                      (·.set_under_dispute false)) info.id
                      Transaction.toggle_under_dispute = st.deposits
                  rw [← hid]
                  rw [← hid] at hl
                  subst hud
                  exact toggle_set_restore _ _ rinfo amt true false hl rfl
            · rename_i hncommit
              cases h2
              rcases processInner_error_spec hinner with rfl | ⟨a0, st2, happ, rfl, hcommit⟩
              · exact Or.inl rfl
              · exact absurd hcommit (fun hc => hncommit _ hc)
  case _ =>
    intro hdep hneg hsome
    cases tx with
    | Withdrawal i amt => simp [Transaction.isDeposit] at hdep
    | Dispute i => simp [Transaction.isDeposit] at hdep
    | Resolve i => simp [Transaction.isDeposit] at hdep
    | ChargeBack i => simp [Transaction.isDeposit] at hdep
    | Deposit i amt u =>
      unfold process_transaction at h
      split at h
      · rename_i hng
        rw [hneg] at hng
        exact Bool.noConfusion hng
      · split at h
        · rename_i e0 hcr
          obtain ⟨-, -, rfl⟩ := create_error_spec hcr
          cases h
          rfl
        · rename_i st1 hcr
          obtain ⟨hnone, -⟩ := create_ok_deposit hcr
          exact absurd hnone hsome

def w3St : MemoryStore :=
  ⟨[(2, .Deposit ⟨2, 1⟩ ⟨5, 0⟩ false)],
   [(1, ⟨1, ⟨0, 0⟩, ⟨0, 0⟩, ⟨0, 0⟩, false⟩)]⟩

theorem claim3_witness :
    ((∀ p ∈ w3St.deposits, p.2.info.id = p.1) ∧
     process_transaction false w3St (.Withdrawal ⟨7, 1⟩ ⟨3, 0⟩) =
       (.error .InsufficientAvailableFunds, w3St)) ∧
    (w3St.accounts = w3St.accounts ∧
     ((Transaction.Withdrawal ⟨7, 1⟩ ⟨3, 0⟩).isDeposit = true →
       w3St.deposits = w3St.deposits) ∧
     ((Transaction.Withdrawal ⟨7, 1⟩ ⟨3, 0⟩).isWithdrawal = true →
       w3St.deposits = w3St.deposits ∨
       w3St.deposits = kvErase w3St.deposits
         (Transaction.Withdrawal ⟨7, 1⟩ ⟨3, 0⟩).info.id) ∧
     ((Transaction.Withdrawal ⟨7, 1⟩ ⟨3, 0⟩).isDeposit = false →
      (Transaction.Withdrawal ⟨7, 1⟩ ⟨3, 0⟩).isWithdrawal = false →
       w3St.deposits = w3St.deposits ∨
       w3St.deposits = kvModify w3St.deposits
         (Transaction.Withdrawal ⟨7, 1⟩ ⟨3, 0⟩).info.id
         Transaction.toggle_under_dispute) ∧
     ((Transaction.Withdrawal ⟨7, 1⟩ ⟨3, 0⟩).isDeposit = true →
      (Transaction.Withdrawal ⟨7, 1⟩ ⟨3, 0⟩).has_negative_amount = false →
       kvLookup w3St.deposits (Transaction.Withdrawal ⟨7, 1⟩ ⟨3, 0⟩).info.id ≠ none →
       EngineError.InsufficientAvailableFunds =
         .Store (.AlreadyExists (Transaction.Withdrawal ⟨7, 1⟩ ⟨3, 0⟩).info.id))) :=
  ⟨⟨by decide, by rfl⟩,
   claim3_amended false w3St (.Withdrawal ⟨7, 1⟩ ⟨3, 0⟩)
     .InsufficientAvailableFunds w3St (by decide) (by rfl)⟩

def c6St : MemoryStore :=
  ⟨[(1, .Deposit ⟨1, 1⟩ ⟨10, 0⟩ false)],
   [(1, ⟨1, ⟨0, 0⟩, ⟨10, 0⟩, ⟨10, 0⟩, false⟩)]⟩

/-- C6 failing input: a Resolve whose referenced deposit is NOT under
dispute takes the ignore path (held is sufficient), so step 5 flips no
flag; when `upsert_account` then fails, the compensation branch still
calls `toggle_under_dispute`, setting the flag from false to true instead
of restoring its pre-call value. -/
theorem claim6_rollback_bug :
    kvLookup c6St.deposits 1 = some (.Deposit ⟨1, 1⟩ ⟨10, 0⟩ false) ∧
    process_transaction true c6St (.Resolve ⟨1, 1⟩) =
      (.error (.TransactionNotCommited (.AccessError "Test Error")),
       ⟨[(1, .Deposit ⟨1, 1⟩ ⟨10, 0⟩ true)], c6St.accounts⟩) ∧
    kvLookup (process_transaction true c6St (.Resolve ⟨1, 1⟩)).2.deposits 1 =
      some (.Deposit ⟨1, 1⟩ ⟨10, 0⟩ true) :=
  ⟨rfl, rfl, rfl⟩

/-- C8: an amount with scale at most 4 is emitted verbatim (its scale,
hence its trailing zeros, is preserved), an amount with larger scale is
rescaled to exactly 4 fractional digits, the writer's rescaling does not
change the stored account (the store after the S5 run keeps scale 5), and
the S5 deposit of 1.00005 displays as 1.0001. -/
theorem claim8_display_precision :
    (∀ x : Amount, x.s ≤ 4 → rescale_to_max_precision x = x) ∧
    (∀ x : Amount, 4 < x.s → (rescale_to_max_precision x).s = 4) ∧
    (run [(Transaction.Deposit ⟨1, 1⟩ ⟨100005, 5⟩ false, false)]).accounts =
      [(1, ⟨1, ⟨100005, 5⟩, ⟨0, 0⟩, ⟨100005, 5⟩, false⟩)] ∧
    write_csv_accounts
        (report (run [(Transaction.Deposit ⟨1, 1⟩ ⟨100005, 5⟩ false, false)])) =
      [⟨1, ⟨10001, 4⟩, ⟨0, 0⟩, ⟨10001, 4⟩, false⟩] := by
  refine ⟨?_, ?_, by decide, by decide⟩
  · intro x hx
    rw [rescale_to_max_precision, if_neg (by omega)]
  · intro x hx
    rw [rescale_to_max_precision, if_pos hx]

theorem claim8_witness :
    ((⟨12340, 4⟩ : Amount).s ≤ 4 ∧
      rescale_to_max_precision ⟨12340, 4⟩ = ⟨12340, 4⟩) ∧
    (4 < (⟨100005, 5⟩ : Amount).s ∧
      (rescale_to_max_precision ⟨100005, 5⟩).s = 4) :=
  ⟨⟨by decide, claim8_display_precision.1 ⟨12340, 4⟩ (by decide)⟩,
   ⟨by decide, claim8_display_precision.2.1 ⟨100005, 5⟩ (by decide)⟩⟩

def w4St : MemoryStore :=
  ⟨[(1, .Deposit ⟨1, 1⟩ ⟨10, 0⟩ false)],
   [(1, ⟨1, ⟨10, 0⟩, ⟨0, 0⟩, ⟨10, 0⟩, false⟩)]⟩

theorem claim4_witness :
    (w4St.get_account 1).locked = false ∧ DisputeCasesSpec w4St ⟨1, 1⟩ :=
  ⟨by decide, claim4_dispute_cases w4St ⟨1, 1⟩ (by decide)⟩

/-- The case analysis of a Resolve and of a Chargeback processed against
an unlocked account whose reference is a stored deposit of the same
client: the held-funds guard is evaluated before the not-under-dispute
check, exactly as in `engine.rs`. -/
def ResolveChargebackSpec (st : MemoryStore) (info rinfo : TransactionInfo)
    (amt : Amount) (ud : Bool) : Prop :=
    ((st.get_account info.client_id).held.lt amt = true →
      process_transaction false st (.Resolve info) =
        (.error .InsufficientHeldFunds, st)) ∧
    ((st.get_account info.client_id).held.lt amt = false → ud = false →
      process_transaction false st (.Resolve info) =
        (.ok (st.get_account info.client_id),
          ⟨st.deposits,
           kvInsert st.accounts (st.get_account info.client_id).client
             (st.get_account info.client_id)⟩)) ∧
    ((st.get_account info.client_id).held.lt amt = false → ud = true →
      (process_transaction false st (.Resolve info) =
        (.ok { st.get_account info.client_id with
                held := (st.get_account info.client_id).held.sub amt,
                available := (st.get_account info.client_id).available.add amt },
          ⟨kvModify st.deposits rinfo.id (·.set_under_dispute false),
           kvInsert st.accounts (st.get_account info.client_id).client
             { st.get_account info.client_id with
                held := (st.get_account info.client_id).held.sub amt,
                available := (st.get_account info.client_id).available.add amt }⟩) ∧
       ((st.get_account info.client_id).held.sub amt).val =
         (st.get_account info.client_id).held.val - amt.val ∧
       ((st.get_account info.client_id).available.add amt).val =
         (st.get_account info.client_id).available.val + amt.val ∧
       (rinfo.id = info.id →
         kvLookup (kvModify st.deposits rinfo.id (·.set_under_dispute false)) info.id =
           some (.Deposit rinfo amt false)))) ∧
    ((st.get_account info.client_id).held.lt amt = true →
      process_transaction false st (.ChargeBack info) =
        (.error .InsufficientHeldFunds, st)) ∧
    ((st.get_account info.client_id).held.lt amt = false → ud = false →
      process_transaction false st (.ChargeBack info) =
        (.ok (st.get_account info.client_id),
          ⟨st.deposits,
           kvInsert st.accounts (st.get_account info.client_id).client
             (st.get_account info.client_id)⟩)) ∧
    ((st.get_account info.client_id).held.lt amt = false → ud = true →
      (process_transaction false st (.ChargeBack info) =
        (.ok { st.get_account info.client_id with
                held := (st.get_account info.client_id).held.sub amt,
                total := (st.get_account info.client_id).total.sub amt,
                locked := true },
          ⟨kvModify st.deposits rinfo.id (·.set_under_dispute false),
           kvInsert st.accounts (st.get_account info.client_id).client
             { st.get_account info.client_id with
                held := (st.get_account info.client_id).held.sub amt,
                total := (st.get_account info.client_id).total.sub amt,
                locked := true }⟩) ∧
       ((st.get_account info.client_id).held.sub amt).val =
         (st.get_account info.client_id).held.val - amt.val ∧
       ((st.get_account info.client_id).total.sub amt).val =
         (st.get_account info.client_id).total.val - amt.val ∧
       (rinfo.id = info.id →
         kvLookup (kvModify st.deposits rinfo.id (·.set_under_dispute false)) info.id =
           some (.Deposit rinfo amt false))))

/-- C7: for every Resolve and every Chargeback against an unlocked account
referencing a stored deposit of the same client: held below the deposit's
amount yields `InsufficientHeldFunds` even when the deposit is not under
dispute; sufficient held with no open dispute succeeds with the account
unchanged; otherwise Resolve moves the amount from held to available,
Chargeback subtracts it from held and total and locks the account, and
both clear the deposit's `under_dispute` flag. -/
theorem claim7_resolve_chargeback (st : MemoryStore) (info rinfo : TransactionInfo)
    (amt : Amount) (ud : Bool)
    (hlock : (st.get_account info.client_id).locked = false)
    (href : kvLookup st.deposits info.id = some (.Deposit rinfo amt ud))
    (hcl : rinfo.client_id = (st.get_account info.client_id).client) :
    ResolveChargebackSpec st info rinfo amt ud := by
  unfold ResolveChargebackSpec
  have hnmR : ¬ ((Transaction.Resolve info).has_negative_amount = true) := by
    simp only [Transaction.has_negative_amount, Transaction.amount]
    exact Bool.false_ne_true
  have hnmC : ¬ ((Transaction.ChargeBack info).has_negative_amount = true) := by
    simp only [Transaction.has_negative_amount, Transaction.amount]
    exact Bool.false_ne_true
  have hcrR : st.create_transaction (.Resolve info) = .ok st := by
    rw [MemoryStore.create_transaction]
  have hcrC : st.create_transaction (.ChargeBack info) = .ok st := by
    rw [MemoryStore.create_transaction]
  refine ⟨?_, ?_, ?_, ?_, ?_, ?_⟩
  · intro hlt
    have hd : resolve st (st.get_account info.client_id) info =
        .error .InsufficientHeldFunds := by
      simp only [resolve, MemoryStore.get_transaction, href, hcl, hlt]
      simp
    simp only [process_transaction, Transaction.info, if_neg hnmR, hcrR, processInner,
      hlock, Bool.false_eq_true, if_false, apply_transaction, hd]
  · intro hlt hud
    subst hud
    have hd : resolve st (st.get_account info.client_id) info =
        .ok (st.get_account info.client_id, st) := by
      simp only [resolve, MemoryStore.get_transaction, href, hcl, hlt]
      simp
    simp only [process_transaction, Transaction.info, if_neg hnmR, hcrR, processInner,
      hlock, Bool.false_eq_true, if_false, apply_transaction, hd,
      MemoryStore.upsert_account]
  · intro hlt hud
    subst hud
    have hd : resolve st (st.get_account info.client_id) info =
        .ok ({ st.get_account info.client_id with
                held := (st.get_account info.client_id).held.sub amt,
                available := (st.get_account info.client_id).available.add amt },
          st.set_transaction_under_dispute rinfo.id false) := by
      simp only [resolve, MemoryStore.get_transaction, href, hcl, hlt]
      simp
    refine ⟨?_, Amount.val_sub _ _, Amount.val_add _ _, ?_⟩
    · simp only [process_transaction, Transaction.info, if_neg hnmR, hcrR, processInner,
        hlock, Bool.false_eq_true, if_false, apply_transaction, hd,
        MemoryStore.set_transaction_under_dispute, MemoryStore.upsert_account]
    · intro hid
      rw [hid, kvLookup_kvModify_self, href]
      rfl
  · intro hlt
    have hd : chargeback st (st.get_account info.client_id) info =
        .error .InsufficientHeldFunds := by
      simp only [chargeback, MemoryStore.get_transaction, href, hcl, hlt]
      simp
    simp only [process_transaction, Transaction.info, if_neg hnmC, hcrC, processInner,
      hlock, Bool.false_eq_true, if_false, apply_transaction, hd]
  · intro hlt hud
    subst hud
    have hd : chargeback st (st.get_account info.client_id) info =
        .ok (st.get_account info.client_id, st) := by
      simp only [chargeback, MemoryStore.get_transaction, href, hcl, hlt]
      simp
    simp only [process_transaction, Transaction.info, if_neg hnmC, hcrC, processInner,
      hlock, Bool.false_eq_true, if_false, apply_transaction, hd,
      MemoryStore.upsert_account]
  · intro hlt hud
    subst hud
    have hd : chargeback st (st.get_account info.client_id) info =
        .ok ({ st.get_account info.client_id with
                held := (st.get_account info.client_id).held.sub amt,
                total := (st.get_account info.client_id).total.sub amt,
                locked := true },
          st.set_transaction_under_dispute rinfo.id false) := by
      simp only [chargeback, MemoryStore.get_transaction, href, hcl, hlt]
      simp
    refine ⟨?_, Amount.val_sub _ _, Amount.val_sub _ _, ?_⟩
    · simp only [process_transaction, Transaction.info, if_neg hnmC, hcrC, processInner,
        hlock, Bool.false_eq_true, if_false, apply_transaction, hd,
        MemoryStore.set_transaction_under_dispute, MemoryStore.upsert_account]
    · intro hid
      rw [hid, kvLookup_kvModify_self, href]
      rfl

def w7St : MemoryStore :=
  ⟨[(1, .Deposit ⟨1, 1⟩ ⟨10, 0⟩ true)],
   [(1, ⟨1, ⟨0, 0⟩, ⟨10, 0⟩, ⟨10, 0⟩, false⟩)]⟩

def c5St : MemoryStore :=
  ⟨[(9, .Deposit ⟨9, 1⟩ ⟨3, 0⟩ false)],
   [(1, ⟨1, ⟨10, 0⟩, ⟨0, 0⟩, ⟨10, 0⟩, true⟩)]⟩

/-- C5 counterexample: with client 1 locked in `c5St`, a deposit of
amount −1 returns `NegativeAmountTransaction`, not `LockedAccount`: the
negative-amount guard runs before the locked-account guard.  (A deposit
reusing the stored id 9 likewise returns `AlreadyExists` first.) -/
theorem claim5_counterexample :
    kvLookup c5St.accounts 1 = some ⟨1, ⟨10, 0⟩, ⟨0, 0⟩, ⟨10, 0⟩, true⟩ ∧
    (process_transaction false c5St (.Deposit ⟨7, 1⟩ ⟨-1, 0⟩ false)).1 =
      .error (.NegativeAmountTransaction 7) ∧
    (process_transaction false c5St (.Deposit ⟨7, 1⟩ ⟨-1, 0⟩ false)).1 ≠
      .error (.LockedAccount 1 7) ∧
    (process_transaction false c5St (.Deposit ⟨9, 1⟩ ⟨3, 0⟩ false)).1 =
      .error (.Store (.AlreadyExists 9)) := by
  refine ⟨rfl, rfl, ?_, rfl⟩
  intro h
  rw [show (process_transaction false c5St (.Deposit ⟨7, 1⟩ ⟨-1, 0⟩ false)).1 =
    .error (.NegativeAmountTransaction 7) from rfl] at h
  exact EngineError.noConfusion (Except.error.inj h)

/-- C5 amended: once a client's account is locked, every subsequent
`process_transaction` for that client fails and leaves the accounts map
(hence the account) byte-identical; the error is `LockedAccount` except
when the negative-amount guard or a duplicate deposit id preempts it. -/
theorem claim5_amended (f : Bool) (st : MemoryStore) (tx : Transaction)
    (a : Account) (hl : kvLookup st.accounts tx.info.client_id = some a)
    (hlock : a.locked = true) :
    (process_transaction f st tx).2.accounts = st.accounts ∧
    (tx.has_negative_amount = false →
      (tx.isDeposit = true → kvLookup st.deposits tx.info.id = none) →
      (process_transaction f st tx).1 =
        .error (.LockedAccount tx.info.client_id tx.info.id)) := by
  have hga : st.get_account tx.info.client_id = a := by
    unfold MemoryStore.get_account
    rw [hl]
    rfl
  constructor
  · rcases hres : process_transaction f st tx with ⟨res, st'⟩
    cases res with
    | error e => exact process_error_accounts hres
    | ok a' =>
      exfalso
      obtain ⟨-, hlk, -⟩ := process_ok_spec hres
      rw [hga, hlock] at hlk
      exact Bool.noConfusion hlk
  · intro hneg hdl
    obtain ⟨st1, hcreate, hacc1⟩ :
        ∃ st1, st.create_transaction tx = .ok st1 ∧ st1.accounts = st.accounts := by
      cases tx with
      | Deposit i amt u =>
        have hnone : kvLookup st.deposits i.id = none := hdl rfl
        refine ⟨⟨kvInsert st.deposits i.id (.Deposit i amt u), st.accounts⟩, ?_, rfl⟩
        simp only [MemoryStore.create_transaction, Transaction.info, hnone]
      | Withdrawal i amt => exact ⟨st, by rw [MemoryStore.create_transaction], rfl⟩
      | Dispute i => exact ⟨st, by rw [MemoryStore.create_transaction], rfl⟩
      | Resolve i => exact ⟨st, by rw [MemoryStore.create_transaction], rfl⟩
      | ChargeBack i => exact ⟨st, by rw [MemoryStore.create_transaction], rfl⟩
    have hlock1 : (st1.get_account tx.info.client_id).locked = true := by
      rw [get_account_congr hacc1, hga, hlock]
    have hinner : processInner f st1 tx =
        .error (.LockedAccount tx.info.client_id tx.info.id, st1) := by
      unfold processInner
      rw [if_pos hlock1]
    have hnm : ¬ (tx.has_negative_amount = true) := by
      rw [hneg]
      exact Bool.false_ne_true
    simp only [process_transaction, if_neg hnm, hcreate, hinner]
    cases tx <;> rfl

def w5St : MemoryStore := ⟨[], [(3, ⟨3, ⟨7, 0⟩, ⟨0, 0⟩, ⟨7, 0⟩, true⟩)]⟩

theorem claim5_witness :
    (kvLookup w5St.accounts 3 = some ⟨3, ⟨7, 0⟩, ⟨0, 0⟩, ⟨7, 0⟩, true⟩ ∧
     (⟨3, ⟨7, 0⟩, ⟨0, 0⟩, ⟨7, 0⟩, true⟩ : Account).locked = true) ∧
    ((process_transaction false w5St (.Withdrawal ⟨4, 3⟩ ⟨1, 0⟩)).2.accounts =
      w5St.accounts ∧
     ((Transaction.Withdrawal ⟨4, 3⟩ ⟨1, 0⟩).has_negative_amount = false →
      ((Transaction.Withdrawal ⟨4, 3⟩ ⟨1, 0⟩).isDeposit = true →
        kvLookup w5St.deposits 4 = none) →
      (process_transaction false w5St (.Withdrawal ⟨4, 3⟩ ⟨1, 0⟩)).1 =
        .error (.LockedAccount 3 4))) :=
  ⟨⟨by decide, by decide⟩,
   claim5_amended false w5St (.Withdrawal ⟨4, 3⟩ ⟨1, 0⟩) ⟨3, ⟨7, 0⟩, ⟨0, 0⟩, ⟨7, 0⟩, true⟩
     (by decide) (by decide)⟩

theorem claim7_witness :
    ((w7St.get_account 1).locked = false ∧
     kvLookup w7St.deposits 1 = some (.Deposit ⟨1, 1⟩ ⟨10, 0⟩ true) ∧
     (⟨1, 1⟩ : TransactionInfo).client_id = (w7St.get_account 1).client) ∧
    ResolveChargebackSpec w7St ⟨1, 1⟩ ⟨1, 1⟩ ⟨10, 0⟩ true :=
  ⟨⟨by decide, by decide, by decide⟩,
   claim7_resolve_chargeback w7St ⟨1, 1⟩ ⟨1, 1⟩ ⟨10, 0⟩ true
     (by decide) (by decide) (by decide)⟩

end Payments
